import Mathlib

/-!
Verification development for the Recruitment_Auto job-aggregation pipeline.

The Python source is shallowly embedded: `datetime` values become a
proleptic-Gregorian record (`PyDateTime`), SQLAlchemy rows become a record
type with explicit update functions, the JSON snapshot becomes a list of
entry records, and every merge/filter in `Database.save_jobs`,
`Database.mark_expired_jobs` and `JSONExporter.export_jobs` becomes a pure
Lean function over those states.  Timestamps are compared through their
total-seconds value, exactly as `datetime` comparison behaves; the
exporter's float computation `total_seconds()/3600 <= 48` is expressed as
the equivalent exact integer comparison on seconds.
-/

/-- Leap-year rule of the Gregorian calendar (`calendar.isleap`). -/
def isLeap (y : Nat) : Bool :=
  (y % 4 == 0 && y % 100 != 0) || y % 400 == 0

/-- Days in month `m` of year `y` (`calendar.monthrange`). -/
def daysInMonth (y m : Nat) : Nat :=
  if m == 2 then (if isLeap y then 29 else 28)
  else if m == 4 || m == 6 || m == 9 || m == 11 then 30
  else 31

/-- Days in the months of year `y` strictly before month `m`. -/
def daysBeforeMonth (y m : Nat) : Nat :=
  (List.range (m - 1)).foldl (fun acc i => acc + daysInMonth y (i + 1)) 0

/-- Python's `datetime.toordinal`: day number of `y-m-d` in the proleptic
Gregorian calendar, with day 1 = 0001-01-01. -/
def toOrdinal (y m d : Nat) : Nat :=
  365 * (y - 1) + (y - 1) / 4 - (y - 1) / 100 + (y - 1) / 400
    + daysBeforeMonth y m + d

/-- Shallow embedding of a (timezone-naive) Python `datetime`. -/
structure PyDateTime where
  year : Nat
  month : Nat
  day : Nat
  hour : Nat := 0
  minute : Nat := 0
  second : Nat := 0
deriving DecidableEq

/-- Seconds since the proleptic epoch; `datetime` comparison and
subtraction both factor through this value. -/
def PyDateTime.toSeconds (t : PyDateTime) : Int :=
  (toOrdinal t.year t.month t.day : Int) * 86400
    + t.hour * 3600 + t.minute * 60 + t.second

/-- `a < b` on datetimes (Python's `<`). -/
def PyDateTime.blt (a b : PyDateTime) : Bool :=
  a.toSeconds < b.toSeconds

/-- Successor day, carrying over month and year boundaries. -/
def PyDateTime.nextDay (t : PyDateTime) : PyDateTime :=
  if t.day < daysInMonth t.year t.month then { t with day := t.day + 1 }
  else if t.month < 12 then { t with month := t.month + 1, day := 1 }
  else { t with year := t.year + 1, month := 1, day := 1 }

/-- `t + timedelta(days := n)`: the time of day is kept, the date advances
`n` calendar days. -/
def PyDateTime.addDays (t : PyDateTime) : Nat → PyDateTime
  | 0 => t
  | n + 1 => t.nextDay.addDays n

/-- Field ranges `datetime` itself enforces (`MINYEAR = 1`,
`MAXYEAR = 9999`, valid month/day, valid time of day). -/
def PyDateTime.Valid (t : PyDateTime) : Prop :=
  1 ≤ t.year ∧ t.year ≤ 9999 ∧ 1 ≤ t.month ∧ t.month ≤ 12 ∧
  1 ≤ t.day ∧ t.day ≤ daysInMonth t.year t.month ∧
  t.hour < 24 ∧ t.minute < 60 ∧ t.second < 60

instance (t : PyDateTime) : Decidable t.Valid := by
  unfold PyDateTime.Valid; infer_instance

/-- Two zero-padded decimal digits (`%02d`). -/
def pad2 (n : Nat) : List Char :=
  [Nat.digitChar (n / 10 % 10), Nat.digitChar (n % 10)]

/-- Four zero-padded decimal digits (`%04d`). -/
def pad4 (n : Nat) : List Char :=
  [Nat.digitChar (n / 1000 % 10), Nat.digitChar (n / 100 % 10),
   Nat.digitChar (n / 10 % 10), Nat.digitChar (n % 10)]

/-- Python's `datetime.isoformat()` for a whole-second value:
`YYYY-MM-DDTHH:MM:SS`. -/
def PyDateTime.isoformat (t : PyDateTime) : String :=
  ⟨pad4 t.year ++ '-' :: pad2 t.month ++ '-' :: pad2 t.day
    ++ 'T' :: pad2 t.hour ++ ':' :: pad2 t.minute ++ ':' :: pad2 t.second⟩

/-- Decimal digit value of a character, if it is one. -/
def digitVal? (c : Char) : Option Nat :=
  if c.isDigit then some (c.toNat - 48) else none

/-- Two-digit number from two characters. -/
def num2 (a b : Char) : Option Nat := do
  let x ← digitVal? a
  let y ← digitVal? b
  pure (10 * x + y)

/-- Four-digit number from four characters. -/
def num4 (a b c d : Char) : Option Nat := do
  let x ← digitVal? a
  let y ← digitVal? b
  let z ← digitVal? c
  let w ← digitVal? d
  pure (1000 * x + 100 * y + 10 * z + w)

/-- Assemble and range-check a parsed datetime, as `datetime.fromisoformat`
validates its fields. -/
def mkValidDateTime (y m d h mi s : Nat) : Option PyDateTime :=
  let t : PyDateTime := ⟨y, m, d, h, mi, s⟩
  if t.Valid then some t else none

/-- Character-level core of `datetime.fromisoformat`, restricted to the
two shapes this system produces and consumes: `YYYY-MM-DD` and
`YYYY-MM-DDTHH:MM:SS`.  Anything else is a parse failure (`ValueError`). -/
def fromisoChars : List Char → Option PyDateTime
  | [y1, y2, y3, y4, c1, m1, m2, c2, d1, d2] =>
    if c1 = '-' ∧ c2 = '-' then do
      let y ← num4 y1 y2 y3 y4
      let m ← num2 m1 m2
      let d ← num2 d1 d2
      mkValidDateTime y m d 0 0 0
    else none
  | [y1, y2, y3, y4, c1, m1, m2, c2, d1, d2, c3, h1, h2, c4, n1, n2, c5, s1, s2] =>
    if c1 = '-' ∧ c2 = '-' ∧ c3 = 'T' ∧ c4 = ':' ∧ c5 = ':' then do
      let y ← num4 y1 y2 y3 y4
      let m ← num2 m1 m2
      let d ← num2 d1 d2
      let h ← num2 h1 h2
      let mi ← num2 n1 n2
      let s ← num2 s1 s2
      mkValidDateTime y m d h mi s
    else none
  | _ => none

/-- `datetime.fromisoformat`, returning `none` where Python raises. -/
def fromisoformat (s : String) : Option PyDateTime :=
  fromisoChars s.data

theorem digitVal?_digitChar (k : Nat) (h : k < 10) :
    digitVal? (Nat.digitChar k) = some k := by
  interval_cases k <;> decide

theorem num2_pad2 (n : Nat) (h : n < 100) :
    (num2 (Nat.digitChar (n / 10 % 10)) (Nat.digitChar (n % 10))) = some n := by
  rw [num2, digitVal?_digitChar _ (Nat.mod_lt _ (by omega)),
      digitVal?_digitChar _ (Nat.mod_lt _ (by omega))]
  simp only [Option.bind_eq_bind, Option.some_bind, Option.pure_def]
  congr 1
  omega

theorem num4_pad4 (n : Nat) (h : n < 10000) :
    (num4 (Nat.digitChar (n / 1000 % 10)) (Nat.digitChar (n / 100 % 10))
      (Nat.digitChar (n / 10 % 10)) (Nat.digitChar (n % 10))) = some n := by
  rw [num4, digitVal?_digitChar _ (Nat.mod_lt _ (by omega)),
      digitVal?_digitChar _ (Nat.mod_lt _ (by omega)),
      digitVal?_digitChar _ (Nat.mod_lt _ (by omega)),
      digitVal?_digitChar _ (Nat.mod_lt _ (by omega))]
  simp only [Option.bind_eq_bind, Option.some_bind, Option.pure_def]
  congr 1
  omega

/-- Round trip: parsing a formatted valid datetime recovers it exactly. -/
theorem fromisoformat_isoformat (t : PyDateTime) (h : t.Valid) :
    fromisoformat t.isoformat = some t := by
  obtain ⟨h1, h2, h3, h4, h5, h6, h7, h8, h9⟩ := h
  rw [fromisoformat, PyDateTime.isoformat]
  show fromisoChars (pad4 t.year ++ '-' :: pad2 t.month ++ '-' :: pad2 t.day
    ++ 'T' :: pad2 t.hour ++ ':' :: pad2 t.minute ++ ':' :: pad2 t.second) = some t
  simp only [pad4, pad2, List.cons_append, List.nil_append]
  rw [fromisoChars]
  have hdm : t.day ≤ 31 := by
    unfold daysInMonth at h6
    split at h6 <;> split at h6 <;> omega
  rw [if_pos (show ('-' = '-' ∧ '-' = '-' ∧ 'T' = 'T' ∧ ':' = ':' ∧ ':' = ':') from
    ⟨rfl, rfl, rfl, rfl, rfl⟩)]
  rw [num4_pad4 _ (by omega), num2_pad2 _ (by omega), num2_pad2 _ (by omega),
      num2_pad2 _ (by omega), num2_pad2 _ (by omega), num2_pad2 _ (by omega)]
  simp only [Option.bind_eq_bind, Option.some_bind]
  rw [mkValidDateTime]
  rw [if_pos (show PyDateTime.Valid ⟨t.year, t.month, t.day, t.hour, t.minute, t.second⟩ from
    ⟨h1, h2, h3, h4, h5, h6, h7, h8, h9⟩)]

/-! ## Posting record (`src/models/job.py: JobPosting`)

Enum fields are carried as their string values (the pydantic model is
configured with `use_enum_values`); JSON-encoded list columns are carried
as their decoded lists. -/

structure JobPosting where
  id : String
  title : String
  company_name : String
  company_logo : Option String := none
  experience_level : String
  experience_text : Option String := none
  deadline : Option PyDateTime := none
  deadline_text : Option String := none
  internship_period : Option String := none
  location : Option String := none
  salary : Option String := none
  employment_type : Option String := none
  requirements : List String := []
  preferred : List String := []
  tech_stack : List String := []
  description : Option String := none
  source : String
  source_url : String
  source_id : Option String := none
  crawled_at : PyDateTime
  updated_at : Option PyDateTime := none
  is_active : Bool := true
  is_new : Bool := true
deriving DecidableEq

/-! ## Relevance filter (`src/crawlers/base.py: BaseCrawler.matches_filter`) -/

/-- Filter configuration (`config/settings.py: FilterSettings`). -/
structure FilterSettings where
  job_keywords : List String
  experience_keywords : List String
  exclude_keywords : List String

/-- Contiguous-substring test on character lists (Python's `in` on `str`). -/
def listHasInfix (needle : List Char) : List Char → Bool
  | [] => needle.isEmpty
  | c :: rest => needle.isPrefixOf (c :: rest) || listHasInfix needle rest

/-- `needle in hay` for strings. -/
def strContains (hay needle : String) : Bool :=
  listHasInfix needle.data hay.data

/-- `str.lower()` (ASCII case folding; every string the claims touch is
ASCII, where Python's full-Unicode folding coincides). -/
def lowerStr (s : String) : String := ⟨s.data.map Char.toLower⟩

/-- `BaseCrawler.matches_filter`: exclusion keywords checked against the
lowered title first; then at least one job keyword must occur in
`title + " " + description`; then at least one experience keyword in
`experience_text`, with an absent or empty `experience_text` passing by
default. -/
def matches_filter (fs : FilterSettings) (job : JobPosting) : Bool :=
  let title_lower := lowerStr job.title
  if fs.exclude_keywords.any (fun ex => strContains title_lower (lowerStr ex)) then
    false
  else
    let search_text := lowerStr (job.title ++ " " ++ job.description.getD "")
    if fs.job_keywords.any (fun k => strContains search_text (lowerStr k)) then
      let exp_text := lowerStr (job.experience_text.getD "")
      if fs.experience_keywords.any (fun k => strContains exp_text (lowerStr k)) then
        true
      else
        -- `return not job.experience_text`: None and "" are falsy
        (job.experience_text.getD "").isEmpty
    else false

/-! ## Deadline parsing (`saramin.py` / `inthiswork.py: _parse_deadline`)

`re.search` is embedded as a scan that tries a position matcher at every
start position, left to right; `\d{1,2}` is greedy with one backtracking
alternative, exactly as the regex engine behaves on these patterns. -/

/-- Value of a decimal digit character. -/
def dv (c : Char) : Nat := c.toNat - 48

/-- `re.search`: first position (leftmost) where the matcher succeeds. -/
def reSearch {α : Type} (m : List Char → Option α) : List Char → Option α
  | [] => m []
  | c :: rest =>
    match m (c :: rest) with
    | some r => some r
    | none => reSearch m rest

/-- Greedy alternatives for `(\d{1,2})` at the current position: two
digits first, then one digit, each with the remaining input. -/
def oneTwoDigits : List Char → List (Nat × List Char)
  | a :: b :: rest =>
    if a.isDigit then
      if b.isDigit then [(10 * dv a + dv b, rest), (dv a, b :: rest)]
      else [(dv a, b :: rest)]
    else []
  | [a] => if a.isDigit then [(dv a, [])] else []
  | [] => []

/-- First alternative on which `f` succeeds (regex backtracking). -/
def firstSome {α β : Type} (f : α → Option β) : List α → Option β
  | [] => none
  | x :: xs =>
    match f x with
    | some r => some r
    | none => firstSome f xs

/-- `(\d{1,2})<sep>(\d{1,2})` anchored at the current position. -/
def matchMDat (sepP : Char → Bool) (l : List Char) : Option (Nat × Nat) :=
  firstSome
    (fun (p : Nat × List Char) =>
      match p.2 with
      | s :: rest2 =>
        if sepP s then (oneTwoDigits rest2).head?.map (fun q => (p.1, q.1))
        else none
      | [] => none)
    (oneTwoDigits l)

/-- `D-(\d+)` anchored at the current position (`ic` adds `re.IGNORECASE`). -/
def matchDdash (ic : Bool) : List Char → Option Nat
  | c :: h :: d :: rest =>
    if (c = 'D' ∨ (ic ∧ c = 'd')) ∧ h = '-' ∧ d.isDigit then
      some ((d :: rest.takeWhile Char.isDigit).foldl (fun a c => 10 * a + dv c) 0)
    else none
  | _ => none

/-- `~\s*(\d{1,2})<sep>(\d{1,2})` anchored at the current position. -/
def matchTildeMD (sepP : Char → Bool) : List Char → Option (Nat × Nat)
  | '~' :: rest => matchMDat sepP (rest.dropWhile Char.isWhitespace)
  | _ => none

/-- `(\d{4})<sep>(\d{1,2})<sep>(\d{1,2})` anchored at the current position. -/
def matchYMDat (sep : Char) : List Char → Option (Nat × Nat × Nat)
  | a :: b :: c :: d :: s :: rest =>
    if a.isDigit ∧ b.isDigit ∧ c.isDigit ∧ d.isDigit ∧ s = sep then
      (matchMDat (· == sep) rest).map
        (fun p => (1000 * dv a + 100 * dv b + 10 * dv c + dv d, p.1, p.2))
    else none
  | _ => none

/-- `datetime(year, month, day)` for a partial `MM/DD` date, rolled to
next year when the computed date already passed (`deadline < today`).
(`datetime` would raise on out-of-range month/day; the claims only
exercise in-range dates, which we model directly.) -/
def resolveMonthDay (today : PyDateTime) (m d : Nat) : PyDateTime :=
  let deadline : PyDateTime := ⟨today.year, m, d, 0, 0, 0⟩
  if deadline.blt today then ⟨today.year + 1, m, d, 0, 0, 0⟩ else deadline

/-- `SaraminCrawler._parse_deadline`: `D-N`, then `~MM/DD`, then `~MM.DD`;
anything else yields no deadline. -/
def saramin_parse_deadline (today : PyDateTime) (text : String) : Option PyDateTime :=
  if text.isEmpty then none
  else
    match reSearch (matchDdash false) text.data with
    | some days => some (today.addDays days)
    | none =>
      match reSearch (matchTildeMD (· == '/')) text.data with
      | some p => some (resolveMonthDay today p.1 p.2)
      | none =>
        match reSearch (matchTildeMD (· == '.')) text.data with
        | some p => some (resolveMonthDay today p.1 p.2)
        | none => none

/-- `InthisworkCrawler._parse_deadline`: case-insensitive `D-N`, then
`YYYY-MM-DD`, then `YYYY.MM.DD`, then `MM/DD` or `MM.DD` with next-future
resolution. -/
def inthiswork_parse_deadline (today : PyDateTime) (text : String) : Option PyDateTime :=
  if text.isEmpty then none
  else
    match reSearch (matchDdash true) text.data with
    | some days => some (today.addDays days)
    | none =>
      match reSearch (matchYMDat '-') text.data with
      | some y => some ⟨y.1, y.2.1, y.2.2, 0, 0, 0⟩
      | none =>
        match reSearch (matchYMDat '.') text.data with
        | some y => some ⟨y.1, y.2.1, y.2.2, 0, 0, 0⟩
        | none =>
          match reSearch (matchMDat (fun c => c == '/' || c == '.')) text.data with
          | some p => some (resolveMonthDay today p.1 p.2)
          | none => none

/-! ## Stable identity (`src/crawlers/base.py: BaseCrawler.generate_id`)

`hashlib.md5` is embedded in full (RFC 1321) over byte lists, with 32-bit
words as `Nat` reduced modulo `2^32`. -/

/-- UTF-8 encoding of one character (`str.encode()`). -/
def utf8Bytes (c : Char) : List Nat :=
  let n := c.toNat
  if n < 128 then [n]
  else if n < 2048 then [192 + n / 64, 128 + n % 64]
  else if n < 65536 then [224 + n / 4096, 128 + n / 64 % 64, 128 + n % 64]
  else [240 + n / 262144, 128 + n / 4096 % 64, 128 + n / 64 % 64, 128 + n % 64]

/-- UTF-8 bytes of a string. -/
def strBytes (s : String) : List Nat :=
  (s.data.map utf8Bytes).flatten

/-- The 64 MD5 sine constants `floor(abs(sin(i+1)) * 2^32)`. -/
def md5K : List Nat :=
  [3614090360, 3905402710, 606105819, 3250441966, 4118548399, 1200080426, 2821735955, 4249261313,
   1770035416, 2336552879, 4294925233, 2304563134, 1804603682, 4254626195, 2792965006, 1236535329,
   4129170786, 3225465664, 643717713, 3921069994, 3593408605, 38016083, 3634488961, 3889429448,
   568446438, 3275163606, 4107603335, 1163531501, 2850285829, 4243563512, 1735328473, 2368359562,
   4294588738, 2272392833, 1839030562, 4259657740, 2763975236, 1272893353, 4139469664, 3200236656,
   681279174, 3936430074, 3572445317, 76029189, 3654602809, 3873151461, 530742520, 3299628645,
   4096336452, 1126891415, 2878612391, 4237533241, 1700485571, 2399980690, 4293915773, 2240044497,
   1873313359, 4264355552, 2734768916, 1309151649, 4149444226, 3174756917, 718787259, 3951481745]

/-- The 64 MD5 per-round left-rotation amounts. -/
def md5S : List Nat :=
  [7, 12, 17, 22, 7, 12, 17, 22, 7, 12, 17, 22, 7, 12, 17, 22,
   5, 9, 14, 20, 5, 9, 14, 20, 5, 9, 14, 20, 5, 9, 14, 20,
   4, 11, 16, 23, 4, 11, 16, 23, 4, 11, 16, 23, 4, 11, 16, 23,
   6, 10, 15, 21, 6, 10, 15, 21, 6, 10, 15, 21, 6, 10, 15, 21]

/-- 32-bit left rotation on a word below `2^32`. -/
def rotl32 (x n : Nat) : Nat :=
  ((x <<< n) % 4294967296) ||| (x >>> (32 - n))

/-- MD5 padding: append `0x80`, zero-fill to 56 mod 64, then the original
bit length as 8 little-endian bytes. -/
def md5pad (msg : List Nat) : List Nat :=
  let len := msg.length
  let zeros := (119 - len % 64) % 64
  msg ++ 128 :: List.replicate zeros 0
      ++ (List.range 8).map (fun i => (((8 * len) % 18446744073709551616) >>> (8 * i)) % 256)

/-- Little-endian 32-bit words of a byte list. -/
def bytesToWords : List Nat → List Nat
  | b0 :: b1 :: b2 :: b3 :: rest =>
    (b0 + 256 * b1 + 65536 * b2 + 16777216 * b3) :: bytesToWords rest
  | _ => []

/-- Split into 64-byte blocks (fuelled so that the recursion is
structural; the fuel `l.length` always suffices since every step consumes
at least one byte). -/
def chunks64Fuel : Nat → List Nat → List (List Nat)
  | 0, _ => []
  | _ + 1, [] => []
  | fuel + 1, c :: rest => ((c :: rest).take 64) :: chunks64Fuel fuel ((c :: rest).drop 64)

/-- Split into 64-byte blocks. -/
def chunks64 (l : List Nat) : List (List Nat) :=
  chunks64Fuel l.length l

/-- MD5 working state. -/
structure MD5State where
  a : Nat
  b : Nat
  c : Nat
  d : Nat

/-- The round-dependent mixing function F/G/H/I. -/
def md5F (i b c d : Nat) : Nat :=
  if i < 16 then (b &&& c) ||| ((b ^^^ 4294967295) &&& d)
  else if i < 32 then (d &&& b) ||| ((d ^^^ 4294967295) &&& c)
  else if i < 48 then b ^^^ c ^^^ d
  else c ^^^ (b ||| (d ^^^ 4294967295))

/-- The round-dependent message index g. -/
def md5g (i : Nat) : Nat :=
  if i < 16 then i
  else if i < 32 then (5 * i + 1) % 16
  else if i < 48 then (3 * i + 5) % 16
  else (7 * i) % 16

/-- One of the 64 MD5 rounds. -/
def md5round (M : List Nat) (st : MD5State) (i : Nat) : MD5State :=
  let f := (md5F i st.b st.c st.d + st.a + md5K.getD i 0 + M.getD (md5g i) 0) % 4294967296
  ⟨st.d, (st.b + rotl32 f (md5S.getD i 0)) % 4294967296, st.b, st.c⟩

/-- Compression of one 64-byte block into the state. -/
def md5compress (st : MD5State) (block : List Nat) : MD5State :=
  let M := bytesToWords block
  let r := (List.range 64).foldl (md5round M) st
  ⟨(st.a + r.a) % 4294967296, (st.b + r.b) % 4294967296,
   (st.c + r.c) % 4294967296, (st.d + r.d) % 4294967296⟩

/-- Little-endian bytes of a 32-bit word. -/
def wordLEbytes (w : Nat) : List Nat :=
  [w % 256, w / 256 % 256, w / 65536 % 256, w / 16777216 % 256]

/-- The 16 digest bytes of a message. -/
def md5digestBytes (msg : List Nat) : List Nat :=
  let st := (chunks64 (md5pad msg)).foldl md5compress
    ⟨1732584193, 4023233417, 2562383102, 271733878⟩
  wordLEbytes st.a ++ wordLEbytes st.b ++ wordLEbytes st.c ++ wordLEbytes st.d

/-- Lowercase hex characters of a byte list (`hexdigest()`). -/
def toHexChars : List Nat → List Char
  | [] => []
  | b :: bs => Nat.digitChar (b / 16 % 16) :: Nat.digitChar (b % 16) :: toHexChars bs

/-- `hashlib.md5(s.encode()).hexdigest()` as a character list. -/
def md5hexChars (msg : List Nat) : List Char :=
  toHexChars (md5digestBytes msg)

/-- `BaseCrawler.generate_id`: md5 hex digest of `"{source}_{source_id}"`,
truncated to its first 12 characters. -/
def generate_id (source source_id : String) : String :=
  ⟨(md5hexChars (strBytes (source ++ "_" ++ source_id))).take 12⟩

/-! ## Relational store (`src/storage/database.py`)

One SQLAlchemy row of the `jobs` table.  The three JSON-encoded `Text`
columns are carried as their decoded lists (`json.dumps`/`json.loads` is a
bijection on lists of strings). -/

structure JobRow where
  id : String
  title : String
  company_name : String
  company_logo : Option String
  experience_level : Option String
  experience_text : Option String
  deadline : Option PyDateTime
  deadline_text : Option String
  internship_period : Option String
  location : Option String
  salary : Option String
  employment_type : Option String
  requirements : List String
  preferred : List String
  tech_stack : List String
  description : Option String
  source : String
  source_url : String
  source_id : Option String
  crawled_at : PyDateTime
  updated_at : Option PyDateTime
  is_active : Bool
  is_new : Bool
deriving DecidableEq

/-- The table contents, in insertion order. -/
abbrev DBState := List JobRow

/-- `Database._to_job_table`. -/
def to_job_table (job : JobPosting) : JobRow :=
  { id := job.id
    title := job.title
    company_name := job.company_name
    company_logo := job.company_logo
    experience_level := some job.experience_level
    experience_text := job.experience_text
    deadline := job.deadline
    deadline_text := job.deadline_text
    internship_period := job.internship_period
    location := job.location
    salary := job.salary
    employment_type := job.employment_type
    requirements := job.requirements
    preferred := job.preferred
    tech_stack := job.tech_stack
    description := job.description
    source := job.source
    source_url := job.source_url
    source_id := job.source_id
    crawled_at := job.crawled_at
    updated_at := job.updated_at
    is_active := job.is_active
    is_new := job.is_new }

/-- `session.query(JobTable).filter_by(id=...).first()`. -/
def findRow (db : DBState) (id : String) : Option JobRow :=
  db.find? (fun r => r.id == id)

/-- The update branch of `save_jobs`: exactly the six assignments
`title`, `company_name`, `deadline`, `deadline_text`, `updated_at`,
`is_new = False` on the existing row. -/
def updateExisting (now : PyDateTime) (job : JobPosting) (r : JobRow) : JobRow :=
  { r with
    title := job.title
    company_name := job.company_name
    deadline := job.deadline
    deadline_text := job.deadline_text
    updated_at := some now
    is_new := false }

/-- Replace the row with the given primary key (ids are unique). -/
def replaceRow (db : DBState) (id : String) (row : JobRow) : DBState :=
  db.map (fun r => if r.id == id then row else r)

/-- The loop body of `save_jobs` run over the staged session state.
`writeOk` models which writes raise; `none` is an in-flight exception. -/
def save_jobs_loop (now : PyDateTime) (writeOk : JobPosting → Bool) :
    DBState → List JobPosting → Nat → Option (DBState × Nat)
  | staged, [], n => some (staged, n)
  | staged, job :: rest, n =>
    if writeOk job then
      match findRow staged job.id with
      | some r =>
        save_jobs_loop now writeOk
          (replaceRow staged job.id (updateExisting now job r)) rest n
      | none =>
        save_jobs_loop now writeOk
          (staged ++ [{ to_job_table job with is_new := true }]) rest (n + 1)
    else none

/-- `Database.save_jobs`: the whole loop runs inside one transaction; on
success the staged state is committed and the count of fresh inserts
returned, on an exception the session is rolled back (the stored state is
unchanged) and the error re-raised. -/
def Database.save_jobs (now : PyDateTime) (writeOk : JobPosting → Bool)
    (db : DBState) (jobs : List JobPosting) : DBState × Except Unit Nat :=
  match save_jobs_loop now writeOk db jobs 0 with
  | some (staged, n) => (staged, Except.ok n)
  | none => (db, Except.error ())

/-- `save_jobs` on the fault-free path. -/
def save_jobs_ok (now : PyDateTime) (db : DBState) (jobs : List JobPosting) : DBState :=
  (Database.save_jobs now (fun _ => true) db jobs).1

/-- `Database.mark_expired_jobs`: deactivate every active row whose
deadline is non-null and strictly before `now`. -/
def mark_expired_jobs (now : PyDateTime) (db : DBState) : DBState :=
  db.map (fun r =>
    if (match r.deadline with | some d => d.blt now | none => false) && r.is_active
    then { r with is_active := false } else r)

/-- One crawl-and-store run (`main.run_crawlers`): `save_jobs` followed by
`mark_expired_jobs`. -/
def dbReconcile (now : PyDateTime) (db : DBState) (jobs : List JobPosting) : DBState :=
  mark_expired_jobs now (save_jobs_ok now db jobs)

/-! ## Snapshot exporter (`src/exporter.py: JSONExporter.export_jobs`)

One entry of the `jobs` array of `jobs.json`.  Timestamps live in the file
as ISO strings, so they are carried as `Option String` here; entries read
back from a prior file may hold arbitrary or missing values, hence
`first_seen_at` is optional as well. -/

structure SnapEntry where
  id : String
  title : String
  company_name : String
  company_logo : Option String
  experience_level : Option String
  experience_text : Option String
  deadline : Option String
  deadline_text : Option String
  internship_period : Option String
  location : Option String
  salary : Option String
  employment_type : Option String
  requirements : List String
  preferred : List String
  tech_stack : List String
  description : Option String
  source : String
  source_url : String
  crawled_at : Option String
  is_new : Bool
  first_seen_at : Option String
deriving DecidableEq

/-- `JSONExporter._job_to_dict` (`first_seen_at` is absent until the merge
fills it in). -/
def job_to_dict (job : JobPosting) : SnapEntry :=
  { id := job.id
    title := job.title
    company_name := job.company_name
    company_logo := job.company_logo
    experience_level := some job.experience_level
    experience_text := job.experience_text
    deadline := job.deadline.map PyDateTime.isoformat
    deadline_text := job.deadline_text
    internship_period := job.internship_period
    location := job.location
    salary := job.salary
    employment_type := job.employment_type
    requirements := job.requirements
    preferred := job.preferred
    tech_stack := job.tech_stack
    description := job.description
    source := job.source
    source_url := job.source_url
    crawled_at := some job.crawled_at.isoformat
    is_new := job.is_new
    first_seen_at := none }

/-- Python `dict` lookup on an insertion-ordered association list. -/
def dictGet (m : List (String × SnapEntry)) (k : String) : Option SnapEntry :=
  (m.find? (fun p => p.1 == k)).map Prod.snd

/-- Python `dict` assignment: overwrite in place, or append at the end. -/
def dictInsert (m : List (String × SnapEntry)) (k : String) (v : SnapEntry) :
    List (String × SnapEntry) :=
  if m.any (fun p => p.1 == k) then
    m.map (fun p => if p.1 == k then (k, v) else p)
  else m ++ [(k, v)]

/-- The freshness recomputation of lines 54–61 of `exporter.py`:
`is_new = (now - first_seen).total_seconds()/3600 <= 48`, `False` when
`first_seen_at` does not parse.  The float comparison is expressed exactly
as seconds `<= 48 * 3600`. -/
def computeIsNew (now : PyDateTime) (first_seen : String) : Bool :=
  match fromisoformat first_seen with
  | some fs => decide (now.toSeconds - fs.toSeconds ≤ 172800)
  | none => false

/-- The per-job body of the exporter merge loop. -/
def merge_job (now : PyDateTime) (acc : List (String × SnapEntry) × Nat)
    (job : JobPosting) : List (String × SnapEntry) × Nat :=
  let jd := job_to_dict job
  match dictGet acc.1 job.id with
  | none =>
    (dictInsert acc.1 job.id
      { jd with first_seen_at := some now.isoformat, is_new := true }, acc.2 + 1)
  | some ex =>
    let fs := ex.first_seen_at.getD now.isoformat
    let isNew := computeIsNew now fs
    (dictInsert acc.1 job.id { jd with first_seen_at := some fs, is_new := isNew },
     if isNew then acc.2 + 1 else acc.2)

/-- The exporter merge: fold the fresh batch into the prior dict,
returning the merged dict and `new_count`. -/
def export_merge (now : PyDateTime) (existing : List (String × SnapEntry))
    (jobs : List JobPosting) : List (String × SnapEntry) × Nat :=
  jobs.foldl (merge_job now) (existing, 0)

/-- Lines 68–76 of `exporter.py`: an entry is dropped exactly when its
deadline is present, truthy, ISO-parseable and strictly before `now`. -/
def keepEntry (now : PyDateTime) (e : SnapEntry) : Bool :=
  match e.deadline with
  | none => true
  | some s =>
    if s.isEmpty then true
    else
      match fromisoformat s with
      | some d => !(d.blt now)
      | none => true

/-- The expiry scan over the merged dict's values. -/
def expiry_filter (now : PyDateTime) (m : List (String × SnapEntry)) : List SnapEntry :=
  (m.map Prod.snd).filter (keepEntry now)

/-- First sort key: `x.get("deadline") or "9999-99-99"`. -/
def sortKey1 (e : SnapEntry) : String :=
  match e.deadline with
  | some s => if s.isEmpty then "9999-99-99" else s
  | none => "9999-99-99"

/-- Second sort key: `x.get("crawled_at") or ""`. -/
def sortKey2 (e : SnapEntry) : String :=
  match e.crawled_at with
  | some s => s
  | none => ""

/-- Lexicographic `<` on character lists by code point (Python `str <`). -/
def charListLt : List Char → List Char → Bool
  | [], [] => false
  | [], _ :: _ => true
  | _ :: _, [] => false
  | a :: as, b :: bs =>
    if a.toNat < b.toNat then true
    else if b.toNat < a.toNat then false
    else charListLt as bs

/-- Python `<` on strings. -/
def strLtB (a b : String) : Bool := charListLt a.data b.data

/-- Key order of the final `active_jobs.sort`: ascending in the tuple
`(sortKey1, sortKey2)`. -/
def keyLE (a b : SnapEntry) : Bool :=
  strLtB (sortKey1 a) (sortKey1 b) ||
    (sortKey1 a == sortKey1 b && !strLtB (sortKey2 b) (sortKey2 a))

/-- `keyLE` as a relation, for the stable sort. -/
def snapLE (a b : SnapEntry) : Prop := keyLE a b = true

instance : DecidableRel snapLE := fun a b => by unfold snapLE; infer_instance

/-- `JSONExporter.export_jobs`: load the prior snapshot as a dict keyed by
id, merge the fresh batch, drop expired entries, and write back sorted by
`(deadline, crawled_at)`.  Python's `list.sort` is a stable sort by this
key, embedded as the (equally stable) insertion sort. -/
def export_jobs (now : PyDateTime) (prior : List SnapEntry)
    (jobs : List JobPosting) : List SnapEntry :=
  let existing := prior.foldl (fun m e => dictInsert m e.id e) []
  let merged := (export_merge now existing jobs).1
  let active := expiry_filter now merged
  active.insertionSort snapLE

/-! ## Shared sample data for concrete witnesses -/

/-- The filter configuration of the spec's filter-correctness scenario. -/
def fsC4 : FilterSettings :=
  { job_keywords := ["Data Analyst"]
    experience_keywords := ["Entry"]
    exclude_keywords := ["Senior"] }

def sampleT1 : PyDateTime := ⟨2025, 6, 1, 12, 0, 0⟩

def sampleT2 : PyDateTime := ⟨2025, 6, 1, 13, 0, 0⟩

def sampleJob : JobPosting :=
  { id := "a1"
    title := "Data Analyst"
    company_name := "Acme"
    experience_level := "entry"
    source := "saramin"
    source_url := "http://s/1"
    crawled_at := sampleT1 }

/-! ## Generic helper lemmas -/

theorem char_eq_of_toNat_eq {a b : Char} (h : a.toNat = b.toNat) : a = b := by
  exact_mod_cast Char.ofNat_toNat a ▸ Char.ofNat_toNat b ▸ congrArg Char.ofNat h

theorem listHasInfix_of_isPrefixOf {needle l : List Char}
    (h : needle.isPrefixOf l = true) : listHasInfix needle l = true := by
  cases l with
  | nil =>
    cases needle with
    | nil => rfl
    | cons c cs => simp [List.isPrefixOf] at h
  | cons c cs => simp [listHasInfix, h]

theorem isPrefixOf_append_left {a b : List Char} (c : List Char)
    (h : a.isPrefixOf b = true) : a.isPrefixOf (b ++ c) = true := by
  rw [List.isPrefixOf_iff_prefix] at h ⊢
  exact h.trans (List.prefix_append b c)

/-- The job-keyword stage accepts any posting titled "Data Analyst"
whatever its description, because the needle is a prefix of the searched
text. -/
theorem searchText_contains_dataAnalyst (D : String) :
    strContains (lowerStr ("Data Analyst" ++ " " ++ D)) (lowerStr "Data Analyst") = true := by
  show listHasInfix ("Data Analyst".data.map Char.toLower)
    ((("Data Analyst" ++ " " ++ D).data).map Char.toLower) = true
  have hdata : ("Data Analyst" ++ " " ++ D).data = "Data Analyst ".data ++ D.data := by
    rw [String.data_append, String.data_append]
    congr 1
  rw [hdata, List.map_append]
  exact listHasInfix_of_isPrefixOf (isPrefixOf_append_left _ (by decide))

/-- C4: with `exclude=["Senior"]`, `job_keywords=["Data Analyst"]`,
`experience_keywords=["Entry"]`, `matches_filter` rejects every posting
titled "Senior Data Analyst" regardless of its other fields; accepts every
posting titled "Data Analyst" whose `experience_text` is empty; and
rejects every posting titled "Data Analyst" whose `experience_text` is
"5 years required". -/
theorem C4_filter_correctness (p1 p2 p3 : JobPosting)
    (h1 : p1.title = "Senior Data Analyst")
    (h2 : p2.title = "Data Analyst") (h2e : p2.experience_text.getD "" = "")
    (h3 : p3.title = "Data Analyst") (h3e : p3.experience_text = some "5 years required") :
    matches_filter fsC4 p1 = false ∧ matches_filter fsC4 p2 = true ∧
      matches_filter fsC4 p3 = false := by
  refine ⟨?_, ?_, ?_⟩
  · have hc1 : (fsC4.exclude_keywords.any fun ex =>
        strContains (lowerStr p1.title) (lowerStr ex)) = true := by
      rw [h1]; decide
    simp only [matches_filter, hc1, if_true]
  · have hc1 : (fsC4.exclude_keywords.any fun ex =>
        strContains (lowerStr p2.title) (lowerStr ex)) = false := by
      rw [h2]; decide
    have hc2 : (fsC4.job_keywords.any fun k =>
        strContains (lowerStr (p2.title ++ " " ++ p2.description.getD "")) (lowerStr k)) = true := by
      rw [h2]
      simpa [fsC4] using searchText_contains_dataAnalyst (p2.description.getD "")
    have hc3 : (fsC4.experience_keywords.any fun k =>
        strContains (lowerStr (p2.experience_text.getD "")) (lowerStr k)) = false := by
      rw [h2e]; decide
    simp only [matches_filter, hc1, hc2, hc3, Bool.false_eq_true, if_false, if_true, h2e]
    decide
  · have hc1 : (fsC4.exclude_keywords.any fun ex =>
        strContains (lowerStr p3.title) (lowerStr ex)) = false := by
      rw [h3]; decide
    have hc3 : (fsC4.experience_keywords.any fun k =>
        strContains (lowerStr (p3.experience_text.getD "")) (lowerStr k)) = false := by
      rw [h3e]; decide
    simp only [matches_filter, hc1, hc3, Bool.false_eq_true, if_false, h3e]
    split <;> decide

/-- Witness for C4 at concrete postings. -/
theorem C4_witness :
    matches_filter fsC4 { sampleJob with title := "Senior Data Analyst" } = false ∧
      matches_filter fsC4 sampleJob = true ∧
      matches_filter fsC4 { sampleJob with experience_text := some "5 years required" } = false :=
  C4_filter_correctness _ _ _ rfl rfl rfl rfl rfl

/-- C5 counterexample: the Saramin adapter's deadline parser has no
absolute-date pattern and requires a leading `~` before partial dates, so
at the concrete now 2025-06-01 12:00 it maps "2025-03-15" and "03/15" to
no deadline at all instead of the dates the claim requires for every
adapter. -/
theorem C5_counterexample :
    saramin_parse_deadline ⟨2025, 6, 1, 12, 0, 0⟩ "2025-03-15" ≠ some ⟨2025, 3, 15, 0, 0, 0⟩ ∧
      saramin_parse_deadline ⟨2025, 6, 1, 12, 0, 0⟩ "03/15" ≠ some ⟨2026, 3, 15, 0, 0, 0⟩ := by
  decide

/-- C5 amended: at a fixed now `T`, "D-7" yields `T + 7 days` in both the
Saramin and Inthiswork parsers; "2025-03-15" yields that calendar date at
midnight and "03/15" (with March 15 of `T`'s year already past) yields
March 15 of next year in the Inthiswork parser; the Saramin parser, whose
only patterns are `D-N`, `~MM/DD` and `~MM.DD`, yields no deadline on bare
"03/15" and on "2025-03-15". -/
theorem C5_amended (T : PyDateTime)
    (hroll : PyDateTime.blt ⟨T.year, 3, 15, 0, 0, 0⟩ T = true) :
    saramin_parse_deadline T "D-7" = some (T.addDays 7) ∧
      inthiswork_parse_deadline T "D-7" = some (T.addDays 7) ∧
      inthiswork_parse_deadline T "2025-03-15" = some ⟨2025, 3, 15, 0, 0, 0⟩ ∧
      inthiswork_parse_deadline T "03/15" = some ⟨T.year + 1, 3, 15, 0, 0, 0⟩ ∧
      saramin_parse_deadline T "03/15" = none ∧
      saramin_parse_deadline T "2025-03-15" = none := by
  have hres : resolveMonthDay T 3 15 = ⟨T.year + 1, 3, 15, 0, 0, 0⟩ := by
    simp only [resolveMonthDay, hroll]
    simp
  exact ⟨rfl, rfl, rfl, by rw [show inthiswork_parse_deadline T "03/15"
    = some (resolveMonthDay T 3 15) from rfl, hres], rfl, rfl⟩

/-- Witness for C5 at the concrete now 2025-06-01 12:00 (past March 15). -/
theorem C5_witness :
    PyDateTime.blt ⟨(⟨2025, 6, 1, 12, 0, 0⟩ : PyDateTime).year, 3, 15, 0, 0, 0⟩
        ⟨2025, 6, 1, 12, 0, 0⟩ = true ∧
      inthiswork_parse_deadline ⟨2025, 6, 1, 12, 0, 0⟩ "03/15" = some ⟨2026, 3, 15, 0, 0, 0⟩ :=
  ⟨by decide, (C5_amended ⟨2025, 6, 1, 12, 0, 0⟩ (by decide)).2.2.2.1⟩

/-! ## C6: identity determinism -/

theorem toHexChars_length (l : List Nat) : (toHexChars l).length = 2 * l.length := by
  induction l with
  | nil => rfl
  | cons b bs ih => simp [toHexChars, ih]; omega

theorem md5digestBytes_length (msg : List Nat) : (md5digestBytes msg).length = 16 := by
  unfold md5digestBytes
  simp [wordLEbytes]

theorem generate_id_length (s i : String) : (generate_id s i).length = 12 := by
  have h1 : (md5hexChars (strBytes (s ++ "_" ++ i))).length = 32 := by
    unfold md5hexChars
    rw [toHexChars_length, md5digestBytes_length]
  show ((md5hexChars (strBytes (s ++ "_" ++ i))).take 12).length = 12
  simp [List.length_take, h1]

/-- The MD5 embedding reproduces the reference digest of "abc"
(RFC 1321 test suite), so `generate_id` computes real `hashlib.md5`
values. -/
theorem md5_test_vector :
    (⟨md5hexChars (strBytes "abc")⟩ : String) = "900150983cd24fb0d6963f7d28e17f72" := by
  set_option maxRecDepth 10000 in decide

/-- C6: `generate_id` is a pure deterministic function of
`(source, source_id)` — repeated computation returns the same value, the
result is the md5 hash of the pair truncated to the fixed length 12, and
equal `(source, source_id)` pairs always receive equal ids. -/
theorem C6_generate_id_deterministic (s i s2 i2 : String) (h : s = s2 ∧ i = i2) :
    generate_id s i = generate_id s i ∧
      (generate_id s i).length = 12 ∧
      generate_id s i = generate_id s2 i2 := by
  obtain ⟨hs, hi⟩ := h
  exact ⟨rfl, generate_id_length s i, by rw [hs, hi]⟩

/-- Witness for C6 on the concrete pair ("saramin", "12345"), whose id is
the first 12 hex digits of `md5("saramin_12345")`. -/
theorem C6_witness :
    ("saramin" = "saramin" ∧ "12345" = "12345") ∧
      (generate_id "saramin" "12345").length = 12 ∧
      generate_id "saramin" "12345" = "88d1f4318a8d" :=
  ⟨⟨rfl, rfl⟩,
   (C6_generate_id_deterministic "saramin" "12345" "saramin" "12345" ⟨rfl, rfl⟩).2.1,
   by set_option maxRecDepth 10000 in decide⟩

/-! ## C8: transactional atomicity of `save_jobs` -/

theorem save_jobs_loop_none (now : PyDateTime) (writeOk : JobPosting → Bool) :
    ∀ (jobs : List JobPosting) (staged : DBState) (n : Nat),
      (∃ j ∈ jobs, writeOk j = false) →
      save_jobs_loop now writeOk staged jobs n = none := by
  intro jobs
  induction jobs with
  | nil => intro staged n h; simp at h
  | cons j rest ih =>
    intro staged n h
    by_cases hj : writeOk j = true
    · obtain ⟨j', hj', hf⟩ := h
      have hmem : j' ∈ rest := by
        rcases List.mem_cons.mp hj' with rfl | hmem
        · rw [hj] at hf; cases hf
        · exact hmem
      simp only [save_jobs_loop, hj, if_true]
      cases findRow staged j.id <;> exact ih _ _ ⟨j', hmem, hf⟩
    · have hj' : writeOk j = false := by revert hj; cases writeOk j <;> simp
      simp [save_jobs_loop, hj']

/-- C8: if any write of the batch raises inside `save_jobs`, the whole
transaction is rolled back — the stored table is exactly the pre-call
state, no partial subset of the batch is persisted — and the error is
re-raised to the caller. -/
theorem C8_save_jobs_atomic (now : PyDateTime) (writeOk : JobPosting → Bool)
    (db : DBState) (jobs : List JobPosting)
    (hfail : ∃ j ∈ jobs, writeOk j = false) :
    Database.save_jobs now writeOk db jobs = (db, Except.error ()) := by
  unfold Database.save_jobs
  rw [save_jobs_loop_none now writeOk jobs db 0 hfail]

/-- Witness for C8: a batch whose (only) write fails leaves the stored
table untouched and surfaces the error. -/
theorem C8_witness :
    (∃ j ∈ [sampleJob], (fun (_ : JobPosting) => false) j = false) ∧
      Database.save_jobs sampleT1 (fun _ => false) [] [sampleJob] = ([], Except.error ()) :=
  ⟨⟨sampleJob, by simp, rfl⟩,
   C8_save_jobs_atomic sampleT1 _ [] [sampleJob] ⟨sampleJob, by simp, rfl⟩⟩

/-! ## C9: frame of the re-sighting update -/

/-- C9: when `save_jobs` finds an existing row with the incoming id, the
batch element only rewrites that row through `updateExisting`, which
overwrites exactly `title`, `company_name`, `deadline`, `deadline_text`,
`updated_at` and `is_new` and leaves every other stored field unchanged. -/
theorem C9_resight_update_frame (now : PyDateTime) (job : JobPosting) (db : DBState)
    (r : JobRow) (h : findRow db job.id = some r) :
    save_jobs_ok now db [job] = replaceRow db job.id (updateExisting now job r) ∧
      ((updateExisting now job r).title = job.title ∧
        (updateExisting now job r).company_name = job.company_name ∧
        (updateExisting now job r).deadline = job.deadline ∧
        (updateExisting now job r).deadline_text = job.deadline_text ∧
        (updateExisting now job r).updated_at = some now ∧
        (updateExisting now job r).is_new = false) ∧
      ((updateExisting now job r).id = r.id ∧
        (updateExisting now job r).company_logo = r.company_logo ∧
        (updateExisting now job r).experience_level = r.experience_level ∧
        (updateExisting now job r).experience_text = r.experience_text ∧
        (updateExisting now job r).internship_period = r.internship_period ∧
        (updateExisting now job r).location = r.location ∧
        (updateExisting now job r).salary = r.salary ∧
        (updateExisting now job r).employment_type = r.employment_type ∧
        (updateExisting now job r).requirements = r.requirements ∧
        (updateExisting now job r).preferred = r.preferred ∧
        (updateExisting now job r).tech_stack = r.tech_stack ∧
        (updateExisting now job r).description = r.description ∧
        (updateExisting now job r).source = r.source ∧
        (updateExisting now job r).source_url = r.source_url ∧
        (updateExisting now job r).source_id = r.source_id ∧
        (updateExisting now job r).crawled_at = r.crawled_at ∧
        (updateExisting now job r).is_active = r.is_active) := by
  refine ⟨?_, ⟨rfl, rfl, rfl, rfl, rfl, rfl⟩,
    rfl, rfl, rfl, rfl, rfl, rfl, rfl, rfl, rfl, rfl, rfl, rfl, rfl, rfl, rfl, rfl, rfl⟩
  simp [save_jobs_ok, Database.save_jobs, save_jobs_loop, h]

/-- Witness for C9 on a one-row table re-sighted by the same posting. -/
theorem C9_witness :
    findRow [to_job_table sampleJob] sampleJob.id = some (to_job_table sampleJob) ∧
      save_jobs_ok sampleT2 [to_job_table sampleJob] [sampleJob]
        = replaceRow [to_job_table sampleJob] sampleJob.id
            (updateExisting sampleT2 sampleJob (to_job_table sampleJob)) :=
  ⟨by decide,
   (C9_resight_update_frame sampleT2 sampleJob [to_job_table sampleJob]
      (to_job_table sampleJob) (by decide)).1⟩

/-! ## C10: unparseable deadlines never expire in the snapshot -/

/-- C10: every merged entry whose deadline is absent or not ISO-parseable
is retained by the exporter's expiry scan and appears in the written
snapshot (the scan's `try/except` treats a parse failure as "keep", and
the export is a total function, so it never raises on such an entry). -/
theorem C10_unparseable_deadline_retained (now : PyDateTime) (prior : List SnapEntry)
    (jobs : List JobPosting) (e : SnapEntry)
    (hmem : e ∈ ((export_merge now
      (prior.foldl (fun m x => dictInsert m x.id x) []) jobs).1.map Prod.snd))
    (hdl : e.deadline = none ∨ ∃ s, e.deadline = some s ∧ fromisoformat s = none) :
    e ∈ export_jobs now prior jobs := by
  have hkeep : keepEntry now e = true := by
    rcases hdl with h | ⟨s, hs, hp⟩
    · simp [keepEntry, h]
    · by_cases he : s.isEmpty
      · simp [keepEntry, hs, he]
      · simp [keepEntry, hs, he, hp]
  simp only [export_jobs]
  rw [List.mem_insertionSort]
  exact List.mem_filter.mpr ⟨hmem, hkeep⟩

/-- A prior-snapshot entry with a free-text deadline. -/
def badEntry : SnapEntry :=
  { id := "b1"
    title := "T"
    company_name := "C"
    company_logo := none
    experience_level := none
    experience_text := none
    deadline := some "always open"
    deadline_text := some "always open"
    internship_period := none
    location := none
    salary := none
    employment_type := none
    requirements := []
    preferred := []
    tech_stack := []
    description := none
    source := "saramin"
    source_url := "u"
    crawled_at := none
    is_new := false
    first_seen_at := none }

/-- Witness for C10: the free-text deadline "always open" never parses,
and the entry survives the export unconditionally. -/
theorem C10_witness :
    (badEntry ∈ ((export_merge sampleT1
        ([badEntry].foldl (fun m x => dictInsert m x.id x) []) []).1.map Prod.snd) ∧
      (badEntry.deadline = none ∨
        ∃ s, badEntry.deadline = some s ∧ fromisoformat s = none)) ∧
      badEntry ∈ export_jobs sampleT1 [badEntry] [] :=
  ⟨⟨by decide, Or.inr ⟨"always open", rfl, by decide⟩⟩,
   C10_unparseable_deadline_retained sampleT1 [badEntry] [] badEntry (by decide)
     (Or.inr ⟨"always open", rfl, by decide⟩)⟩

/-! ## Dict lemmas for the exporter's merged map -/

theorem findOverwrite (k : String) (v : SnapEntry) :
    ∀ m : List (String × SnapEntry), m.any (fun p => p.1 == k) = true →
      List.find? (fun p => p.1 == k)
        (m.map (fun p => if p.1 == k then (k, v) else p)) = some (k, v) := by
  intro m
  induction m with
  | nil => intro h; simp at h
  | cons p rest ih =>
    intro h
    rw [List.map_cons]
    by_cases hp : (p.1 == k) = true
    · rw [if_pos hp]
      exact List.find?_cons_of_pos _ (by simp)
    · have hp' : (p.1 == k) = false := by revert hp; cases p.1 == k <;> simp
      have hrest : rest.any (fun p => p.1 == k) = true := by
        simp only [List.any_cons, hp', Bool.false_or] at h
        exact h
      rw [if_neg hp, List.find?_cons_of_neg _ (by simp [hp']), ih hrest]

theorem findAppendNew (k : String) (v : SnapEntry) :
    ∀ m : List (String × SnapEntry), m.any (fun p => p.1 == k) = false →
      List.find? (fun p => p.1 == k) (m ++ [(k, v)]) = some (k, v) := by
  intro m
  induction m with
  | nil => simp [List.find?]
  | cons p rest ih =>
    intro h
    simp only [List.any_cons, Bool.or_eq_false_iff] at h
    simp [List.find?, h.1, ih h.2]

/-- Assigning key `k` makes lookup of `k` return the new value. -/
theorem dictGet_dictInsert_self (m : List (String × SnapEntry)) (k : String) (v : SnapEntry) :
    dictGet (dictInsert m k v) k = some v := by
  unfold dictGet dictInsert
  by_cases hany : m.any (fun p => p.1 == k) = true
  · rw [if_pos hany, findOverwrite k v m hany]; rfl
  · have h' : m.any (fun p => p.1 == k) = false := by
      revert hany; cases m.any (fun p => p.1 == k) <;> simp
    rw [if_neg (by simp [h']), findAppendNew k v m h']; rfl

/-- Assigning a different key leaves lookup of `k` unchanged. -/
theorem dictGet_dictInsert_ne (m : List (String × SnapEntry)) (k k' : String)
    (v : SnapEntry) (hne : k' ≠ k) : dictGet (dictInsert m k' v) k = dictGet m k := by
  have hmap : ∀ mm : List (String × SnapEntry),
      List.find? (fun p => p.1 == k) (mm.map (fun p => if p.1 == k' then (k', v) else p))
        = List.find? (fun p => p.1 == k) mm := by
    intro mm
    induction mm with
    | nil => rfl
    | cons p rest ih =>
      rw [List.map_cons]
      by_cases hp : (p.1 == k') = true
      · have hpk : (p.1 == k) = false := by
          have h1 : p.1 = k' := by simpa using hp
          simp [h1, hne]
        rw [if_pos hp, List.find?_cons_of_neg _ (by simp [hne]),
            List.find?_cons_of_neg _ (by simp [hpk]), ih]
      · by_cases hpk : (p.1 == k) = true
        · rw [if_neg hp,
              @List.find?_cons_of_pos _ (fun q => q.1 == k) p _ hpk,
              @List.find?_cons_of_pos _ (fun q => q.1 == k) p _ hpk]
        · rw [if_neg hp,
              @List.find?_cons_of_neg _ (fun q => q.1 == k) p _ hpk,
              @List.find?_cons_of_neg _ (fun q => q.1 == k) p _ hpk, ih]
  unfold dictGet dictInsert
  split
  · rw [hmap]
  · rw [List.find?_append]
    have hsing : List.find? (fun p => p.1 == k) [(k', v)] = none := by
      have hkk : (k' == k) = false := by simp [hne]
      simp [List.find?, hkk]
    rw [hsing]
    cases List.find? (fun p => p.1 == k) m <;> rfl

/-! ## C7: freshness monotonic decay -/

/-- C7: an entry first seen at `T` has its recomputed `is_new` equal to
true at `T + 47h` and false at `T + 49h`; and the merge's `is_new` for a
re-sighted entry is a function of its stored `first_seen_at` and `now`
alone — two merge states whose entries agree on `first_seen_at` produce
the same `is_new`, regardless of everything else in the maps. -/
theorem C7_freshness_decay (T now47 now49 : PyDateTime) (hV : T.Valid)
    (h47 : now47.toSeconds = T.toSeconds + 47 * 3600)
    (h49 : now49.toSeconds = T.toSeconds + 49 * 3600) :
    computeIsNew now47 T.isoformat = true ∧
      computeIsNew now49 T.isoformat = false ∧
      ∀ (now : PyDateTime) (acc1 acc2 : List (String × SnapEntry) × Nat)
        (job : JobPosting) (ex1 ex2 : SnapEntry),
        dictGet acc1.1 job.id = some ex1 → dictGet acc2.1 job.id = some ex2 →
        ex1.first_seen_at = ex2.first_seen_at →
        (dictGet (merge_job now acc1 job).1 job.id).map SnapEntry.is_new =
          (dictGet (merge_job now acc2 job).1 job.id).map SnapEntry.is_new := by
  refine ⟨?_, ?_, ?_⟩
  · unfold computeIsNew
    rw [fromisoformat_isoformat T hV, h47]
    simp only [decide_eq_true_eq]
    omega
  · unfold computeIsNew
    rw [fromisoformat_isoformat T hV, h49]
    simp only [decide_eq_false_iff_not]
    omega
  · intro now acc1 acc2 job ex1 ex2 h1 h2 hfs
    simp only [merge_job, h1, h2, hfs]
    rw [dictGet_dictInsert_self, dictGet_dictInsert_self]

/-- Witness for C7 with `T` = 2025-01-01 00:00. -/
theorem C7_witness :
    ((⟨2025, 1, 1, 0, 0, 0⟩ : PyDateTime).Valid ∧
      (⟨2025, 1, 2, 23, 0, 0⟩ : PyDateTime).toSeconds
        = (⟨2025, 1, 1, 0, 0, 0⟩ : PyDateTime).toSeconds + 47 * 3600 ∧
      (⟨2025, 1, 3, 1, 0, 0⟩ : PyDateTime).toSeconds
        = (⟨2025, 1, 1, 0, 0, 0⟩ : PyDateTime).toSeconds + 49 * 3600) ∧
      computeIsNew ⟨2025, 1, 2, 23, 0, 0⟩ (PyDateTime.isoformat ⟨2025, 1, 1, 0, 0, 0⟩) = true ∧
      computeIsNew ⟨2025, 1, 3, 1, 0, 0⟩ (PyDateTime.isoformat ⟨2025, 1, 1, 0, 0, 0⟩) = false :=
  ⟨⟨by decide, by decide, by decide⟩,
   (C7_freshness_decay ⟨2025, 1, 1, 0, 0, 0⟩ ⟨2025, 1, 2, 23, 0, 0⟩ ⟨2025, 1, 3, 1, 0, 0⟩
      (by decide) (by decide) (by decide)).1,
   (C7_freshness_decay ⟨2025, 1, 1, 0, 0, 0⟩ ⟨2025, 1, 2, 23, 0, 0⟩ ⟨2025, 1, 3, 1, 0, 0⟩
      (by decide) (by decide) (by decide)).2.1⟩

/-! ## C1: the two sinks disagree on `is_new` for re-sightings -/

/-- C1 counterexample: the same posting fed at 12:00 and re-fed one hour
later (well inside the 48-hour window) ends with `is_new = false` in the
database but `is_new = true` in the snapshot, so the two sinks do not
agree. -/
theorem C1_counterexample :
    (findRow (dbReconcile sampleT2 (dbReconcile sampleT1 [] [sampleJob]) [sampleJob])
        sampleJob.id).map JobRow.is_new ≠
      (List.find? (fun e => e.id == sampleJob.id)
        (export_jobs sampleT2 (export_jobs sampleT1 [] [sampleJob]) [sampleJob])).map
        SnapEntry.is_new := by
  decide

/-- C1 amended: for a posting re-sighted within 48 hours of its first
sighting, the database's `save_jobs` unconditionally stores
`is_new = false` (database.py line 169) while the snapshot exporter
recomputes `is_new = true` from the preserved `first_seen_at`; the two
sinks therefore disagree on every such posting (they agree only on first
sightings and on re-sightings after the window). -/
theorem C1_amended (j : JobPosting) (T1 T2 : PyDateTime) (hV : T1.Valid)
    (hd : j.deadline = none)
    (h48 : T2.toSeconds - T1.toSeconds ≤ 172800) :
    (findRow (dbReconcile T2 (dbReconcile T1 [] [j]) [j]) j.id).map JobRow.is_new
        = some false ∧
      (List.find? (fun e => e.id == j.id)
        (export_jobs T2 (export_jobs T1 [] [j]) [j])).map SnapEntry.is_new = some true := by
  constructor
  · simp [dbReconcile, save_jobs_ok, Database.save_jobs, save_jobs_loop, findRow,
      replaceRow, mark_expired_jobs, updateExisting, to_job_table, hd, List.find?]
  · have hcin : computeIsNew T2 (PyDateTime.isoformat T1) = true := by
      unfold computeIsNew
      rw [fromisoformat_isoformat T1 hV]
      simp only [decide_eq_true_eq]
      exact h48
    simp [export_jobs, export_merge, merge_job, dictGet, dictInsert, expiry_filter,
      keepEntry, job_to_dict, hd, List.find?, hcin, List.insertionSort, List.orderedInsert]

/-- Witness for C1 with the shared sample posting re-sighted after one
hour. -/
theorem C1_witness :
    (sampleT1.Valid ∧ sampleJob.deadline = none ∧
        sampleT2.toSeconds - sampleT1.toSeconds ≤ 172800) ∧
      (findRow (dbReconcile sampleT2 (dbReconcile sampleT1 [] [sampleJob]) [sampleJob])
          sampleJob.id).map JobRow.is_new = some false :=
  ⟨⟨by decide, rfl, by decide⟩,
   (C1_amended sampleJob sampleT1 sampleT2 (by decide) rfl (by decide)).1⟩

/-! ## Row-lookup lemmas for the store -/

theorem findRow_map_id_pres (f : JobRow → JobRow) (hf : ∀ x, (f x).id = x.id) :
    ∀ (db : DBState) (k : String), findRow (db.map f) k = (findRow db k).map f := by
  intro db k
  induction db with
  | nil => rfl
  | cons x rest ih =>
    unfold findRow at ih ⊢
    rw [List.map_cons]
    by_cases hx : (x.id == k) = true
    · rw [@List.find?_cons_of_pos _ (fun r => r.id == k) (f x) _
        (show ((f x).id == k) = true by rw [hf]; exact hx),
        @List.find?_cons_of_pos _ (fun r => r.id == k) x _ hx]
      rfl
    · rw [@List.find?_cons_of_neg _ (fun r => r.id == k) (f x) _
        (show ¬((f x).id == k) = true by rw [hf]; exact hx),
        @List.find?_cons_of_neg _ (fun r => r.id == k) x _ hx]
      exact ih

theorem findRow_replaceRow_found (k : String) (row' : JobRow) (hrow : row'.id = k) :
    ∀ db : DBState, (findRow db k).isSome → findRow (replaceRow db k row') k = some row' := by
  intro db
  induction db with
  | nil => intro h; simp [findRow, List.find?] at h
  | cons x rest ih =>
    intro h
    unfold replaceRow at ih ⊢
    rw [List.map_cons]
    by_cases hx : (x.id == k) = true
    · rw [if_pos hx]
      unfold findRow
      exact @List.find?_cons_of_pos _ (fun r => r.id == k) row' _ (by simp [hrow])
    · rw [if_neg hx]
      unfold findRow at h ih ⊢
      rw [@List.find?_cons_of_neg _ (fun r => r.id == k) x _ hx] at h
      rw [@List.find?_cons_of_neg _ (fun r => r.id == k) x _ hx]
      exact ih h

theorem findRow_id_eq {db : DBState} {k : String} {r : JobRow}
    (h : findRow db k = some r) : r.id = k := by
  unfold findRow at h
  have := (List.find?_eq_some.mp h).1
  simpa using this

/-! ## Merged-map lemmas for the exporter -/

theorem dictGet_merge_job_ne (now : PyDateTime) (acc : List (String × SnapEntry) × Nat)
    (job : JobPosting) (k : String) (hne : job.id ≠ k) :
    dictGet (merge_job now acc job).1 k = dictGet acc.1 k := by
  rcases hget : dictGet acc.1 job.id with _ | ex <;>
    simp only [merge_job, hget] <;>
    exact dictGet_dictInsert_ne _ _ _ _ hne

theorem dictGet_mem_values {m : List (String × SnapEntry)} {k : String} {e : SnapEntry}
    (h : dictGet m k = some e) : e ∈ m.map Prod.snd := by
  unfold dictGet at h
  rcases hf : m.find? (fun p => p.1 == k) with _ | p
  · rw [hf] at h; cases h
  · rw [hf] at h
    have hpe : p.2 = e := by simpa using h
    exact hpe ▸ List.mem_map_of_mem Prod.snd (List.mem_of_find?_eq_some hf)

/-- After merging a batch, the entry stored under key `k` carries the
deadline of the (last) batch posting with that id, provided all batch
postings with that id agree on the deadline. -/
theorem export_merge_get (now : PyDateTime) (k : String) (dl : Option String) :
    ∀ (jobs : List JobPosting) (acc : List (String × SnapEntry) × Nat),
      (∀ j' ∈ jobs, j'.id = k → j'.deadline.map PyDateTime.isoformat = dl) →
      ((∃ j ∈ jobs, j.id = k) ∨
        (∃ e, dictGet acc.1 k = some e ∧ e.id = k ∧ e.deadline = dl)) →
      ∃ e, dictGet (jobs.foldl (merge_job now) acc).1 k = some e ∧
        e.id = k ∧ e.deadline = dl := by
  intro jobs
  induction jobs with
  | nil =>
    intro acc hdl hcase
    rcases hcase with ⟨j, hj, _⟩ | ⟨e, he⟩
    · exact absurd hj (List.not_mem_nil j)
    · exact ⟨e, he⟩
  | cons j' rest ih =>
    intro acc hdl hcase
    rw [List.foldl_cons]
    by_cases hid : j'.id = k
    · refine ih _ (fun x hx hxk => hdl x (List.mem_cons_of_mem _ hx) hxk) (Or.inr ?_)
      have hdl' : j'.deadline.map PyDateTime.isoformat = dl :=
        hdl j' (List.mem_cons_self _ _) hid
      subst hid
      rcases hget : dictGet acc.1 j'.id with _ | ex
      · refine ⟨{ job_to_dict j' with
                    first_seen_at := some now.isoformat
                    is_new := true }, ?_, ?_, ?_⟩
        · simp only [merge_job, hget]
          exact dictGet_dictInsert_self _ _ _
        · simp [job_to_dict]
        · simpa [job_to_dict] using hdl'
      · refine ⟨{ job_to_dict j' with
                    first_seen_at := some (ex.first_seen_at.getD now.isoformat)
                    is_new := computeIsNew now (ex.first_seen_at.getD now.isoformat) }, ?_, ?_, ?_⟩
        · simp only [merge_job, hget]
          exact dictGet_dictInsert_self _ _ _
        · simp [job_to_dict]
        · simpa [job_to_dict] using hdl'
    · refine ih _ (fun x hx hxk => hdl x (List.mem_cons_of_mem _ hx) hxk) ?_
      rcases hcase with ⟨j, hj, hjk⟩ | ⟨e, he1, he2, he3⟩
      · rcases List.mem_cons.mp hj with rfl | hmem
        · exact absurd hjk hid
        · exact Or.inl ⟨j, hmem, hjk⟩
      · exact Or.inr ⟨e, by
          rw [dictGet_merge_job_ne now acc j' k hid]; exact he1, he2, he3⟩

theorem isoformat_isEmpty_false (t : PyDateTime) :
    (PyDateTime.isoformat t).isEmpty = false := by
  rcases he : (PyDateTime.isoformat t).isEmpty with _ | _
  · rfl
  · have h1 : PyDateTime.isoformat t = "" := (String.isEmpty_iff _).mp he
    have h2 := congrArg String.data h1
    simp [PyDateTime.isoformat, pad4, pad2] at h2

/-! ## C3: expiry is one-way within a run, reversible only in the snapshot -/

/-- C3 counterexample: a posting expired by the 2025-06-01 12:00 run and
re-supplied one hour later with the future deadline 2025-07-01 keeps
`is_active = false` in the database — `save_jobs` never touches
`is_active` and `mark_expired_jobs` only ever clears it — so the claimed
flip back to true does not happen in that sink. -/
theorem C3_counterexample :
    PyDateTime.blt ⟨2025, 7, 1, 0, 0, 0⟩ sampleT2 = false ∧
      (findRow (dbReconcile sampleT2
          (dbReconcile sampleT1 [] [{ sampleJob with deadline := some ⟨2025, 5, 1, 0, 0, 0⟩ }])
          [{ sampleJob with deadline := some ⟨2025, 7, 1, 0, 0, 0⟩ }])
        sampleJob.id).map JobRow.is_active ≠ some true := by
  decide

/-- C3 amended: (database) after a reconciliation run every stored row
whose deadline is non-null and strictly before now has
`is_active = false`; (exporter) the written snapshot never contains an
entry whose parsed deadline is strictly before now, and re-supplying an id
with a future valid deadline puts it (back) into the snapshot; (database,
correcting the claim) re-supplying an expired row with a future deadline
does NOT flip `is_active` back to true — the update overwrites the
deadline but leaves `is_active` false. -/
theorem C3_amended (now : PyDateTime) :
    (∀ (db : DBState) (jobs : List JobPosting) (r : JobRow),
        r ∈ dbReconcile now db jobs → ∀ d, r.deadline = some d → d.blt now = true →
        r.is_active = false) ∧
      (∀ (prior : List SnapEntry) (jobs : List JobPosting) (e : SnapEntry),
        e ∈ export_jobs now prior jobs → ∀ s d, e.deadline = some s →
        fromisoformat s = some d → d.blt now = false) ∧
      (∀ (prior : List SnapEntry) (jobs : List JobPosting) (j : JobPosting) (d : PyDateTime),
        j ∈ jobs → (∀ j' ∈ jobs, j'.id = j.id → j'.deadline = j.deadline) →
        j.deadline = some d → d.Valid → d.blt now = false →
        ∃ e ∈ export_jobs now prior jobs, e.id = j.id) ∧
      (∀ (db : DBState) (j : JobPosting) (r : JobRow),
        findRow db j.id = some r → r.is_active = false →
        (findRow (dbReconcile now db [j]) j.id).map JobRow.is_active = some false) := by
  refine ⟨?_, ?_, ?_, ?_⟩
  · intro db jobs r hr d hd hlt
    unfold dbReconcile mark_expired_jobs at hr
    rcases List.mem_map.mp hr with ⟨r0, _, rfl⟩
    by_cases hc : ((match r0.deadline with | some d => d.blt now | none => false)
        && r0.is_active) = true
    · simp [hc]
    · have hc' : ((match r0.deadline with | some d => d.blt now | none => false)
          && r0.is_active) = false := by
        revert hc; cases ((match r0.deadline with | some d => d.blt now | none => false)
          && r0.is_active) <;> simp
      rw [hc'] at hd ⊢
      simp only [Bool.false_eq_true, if_false] at hd ⊢
      rw [hd] at hc'
      simp [hlt] at hc'
      exact hc'
  · intro prior jobs e hmem s d hs hparse
    have hkeep : keepEntry now e = true := by
      simp only [export_jobs] at hmem
      rw [List.mem_insertionSort] at hmem
      exact (List.mem_filter.mp hmem).2
    simp only [keepEntry, hs] at hkeep
    by_cases hemp : s.isEmpty = true
    · have : s = "" := (String.isEmpty_iff _).mp hemp
      rw [this] at hparse
      cases hparse
    · rw [if_neg hemp, hparse] at hkeep
      simpa using hkeep
  · intro prior jobs j d hj hsame hjd hVd hblt
    obtain ⟨e, hget, heid, hedl⟩ :=
      export_merge_get now j.id (some d.isoformat) jobs
        (prior.foldl (fun m x => dictInsert m x.id x) [], 0)
        (fun j' hj' hj'k => by rw [hsame j' hj' hj'k, hjd]; rfl)
        (Or.inl ⟨j, hj, rfl⟩)
    have hkeep : keepEntry now e = true := by
      simp only [keepEntry, hedl, isoformat_isEmpty_false, Bool.false_eq_true, if_false,
        fromisoformat_isoformat d hVd, hblt]
      rfl
    refine ⟨e, ?_, heid⟩
    simp only [export_jobs]
    rw [List.mem_insertionSort]
    exact List.mem_filter.mpr ⟨dictGet_mem_values hget, hkeep⟩
  · intro db j r hfind hact
    have hrid : r.id = j.id := findRow_id_eq hfind
    have hsave : save_jobs_ok now db [j] = replaceRow db j.id (updateExisting now j r) := by
      simp [save_jobs_ok, Database.save_jobs, save_jobs_loop, hfind]
    have hfid : ∀ x : JobRow,
        ((if (match x.deadline with | some d => d.blt now | none => false) && x.is_active
          then { x with is_active := false } else x) : JobRow).id = x.id := by
      intro x; split <;> rfl
    unfold dbReconcile mark_expired_jobs
    rw [hsave, findRow_map_id_pres _ hfid,
      findRow_replaceRow_found j.id _ (by simp [updateExisting, hrid]) db
        (by rw [hfind]; rfl)]
    simp [updateExisting, hact]

/-- Witness for C3 at a concrete now, store and batch. -/
theorem C3_witness :
    ((findRow [{ to_job_table sampleJob with is_active := false }] sampleJob.id
        = some { to_job_table sampleJob with is_active := false }) ∧
      ({ to_job_table sampleJob with is_active := false } : JobRow).is_active = false) ∧
      (findRow (dbReconcile sampleT2
          [{ to_job_table sampleJob with is_active := false }] [sampleJob])
        sampleJob.id).map JobRow.is_active = some false :=
  ⟨⟨by decide, rfl⟩,
   (C3_amended sampleT2).2.2.2 [{ to_job_table sampleJob with is_active := false }]
     sampleJob { to_job_table sampleJob with is_active := false } (by decide) rfl⟩

/-! ## Order facts for the snapshot sort comparator -/

theorem charListLt_irrefl : ∀ l : List Char, charListLt l l = false := by
  intro l
  induction l with
  | nil => rfl
  | cons c cs ih => simp [charListLt, ih]

theorem charListLt_asymm : ∀ a b : List Char,
    charListLt a b = true → charListLt b a = false := by
  intro a
  induction a with
  | nil =>
    intro b h
    cases b with
    | nil => simp [charListLt] at h
    | cons c cs => rfl
  | cons c cs ih =>
    intro b h
    cases b with
    | nil => simp [charListLt] at h
    | cons d ds =>
      simp only [charListLt] at h ⊢
      by_cases h1 : c.toNat < d.toNat
      · rw [if_neg (by omega), if_pos h1]
      · rw [if_neg h1] at h
        by_cases h2 : d.toNat < c.toNat
        · rw [if_pos h2] at h; cases h
        · rw [if_neg h2] at h
          rw [if_neg h2, if_neg h1]
          exact ih ds h

theorem charListLt_trans : ∀ a b c : List Char,
    charListLt a b = true → charListLt b c = true → charListLt a c = true := by
  intro a
  induction a with
  | nil =>
    intro b c hab hbc
    cases c with
    | nil =>
      cases b with
      | nil => exact hab
      | cons d ds => simp [charListLt] at hbc
    | cons e es => rfl
  | cons x xs ih =>
    intro b c hab hbc
    cases b with
    | nil => simp [charListLt] at hab
    | cons d ds =>
      cases c with
      | nil => simp [charListLt] at hbc
      | cons e es =>
        simp only [charListLt] at hab hbc ⊢
        by_cases h1 : x.toNat < d.toNat
        · by_cases h2 : d.toNat < e.toNat
          · rw [if_pos (by omega)]
          · rw [if_neg h2] at hbc
            by_cases h3 : e.toNat < d.toNat
            · rw [if_pos h3] at hbc; cases hbc
            · rw [if_pos (by omega)]
        · rw [if_neg h1] at hab
          by_cases h4 : d.toNat < x.toNat
          · rw [if_pos h4] at hab; cases hab
          · rw [if_neg h4] at hab
            by_cases h2 : d.toNat < e.toNat
            · rw [if_pos (by omega)]
            · rw [if_neg h2] at hbc
              by_cases h3 : e.toNat < d.toNat
              · rw [if_pos h3] at hbc; cases hbc
              · rw [if_neg h3] at hbc
                rw [if_neg (by omega), if_neg (by omega)]
                exact ih ds es hab hbc

theorem charListLt_conn : ∀ a b : List Char,
    charListLt a b = false → charListLt b a = false → a = b := by
  intro a
  induction a with
  | nil =>
    intro b h1 _
    cases b with
    | nil => rfl
    | cons c cs => simp [charListLt] at h1
  | cons c cs ih =>
    intro b h1 h2
    cases b with
    | nil => simp [charListLt] at h2
    | cons d ds =>
      simp only [charListLt] at h1 h2
      by_cases hcd : c.toNat < d.toNat
      · rw [if_pos hcd] at h1; cases h1
      · rw [if_neg hcd] at h1
        by_cases hdc : d.toNat < c.toNat
        · rw [if_pos hdc] at h2; cases h2
        · rw [if_neg hdc] at h1
          rw [if_neg (by omega), if_neg (by omega)] at h2
          have hc : c = d := char_eq_of_toNat_eq (by omega)
          rw [hc, ih ds h1 h2]

theorem string_data_inj {a b : String} (h : a.data = b.data) : a = b :=
  congrArg String.mk h

theorem strLtB_conn {a b : String} (h1 : strLtB a b = false) (h2 : strLtB b a = false) :
    a = b :=
  string_data_inj (charListLt_conn a.data b.data h1 h2)

theorem keyLE_total : ∀ a b : SnapEntry, keyLE a b = true ∨ keyLE b a = true := by
  intro a b
  by_cases h1 : strLtB (sortKey1 a) (sortKey1 b) = true
  · left; simp [keyLE, h1]
  · have h1' : strLtB (sortKey1 a) (sortKey1 b) = false := by
      revert h1; cases strLtB (sortKey1 a) (sortKey1 b) <;> simp
    by_cases h2 : strLtB (sortKey1 b) (sortKey1 a) = true
    · right; simp [keyLE, h2]
    · have h2' : strLtB (sortKey1 b) (sortKey1 a) = false := by
        revert h2; cases strLtB (sortKey1 b) (sortKey1 a) <;> simp
      have heq : sortKey1 a = sortKey1 b := strLtB_conn h1' h2'
      by_cases h3 : strLtB (sortKey2 b) (sortKey2 a) = true
      · right
        have h4 : strLtB (sortKey2 a) (sortKey2 b) = false :=
          charListLt_asymm _ _ h3
        simp [keyLE, h2', heq, h4]
      · left
        have h3' : strLtB (sortKey2 b) (sortKey2 a) = false := by
          revert h3; cases strLtB (sortKey2 b) (sortKey2 a) <;> simp
        simp [keyLE, h1', heq, h3']

theorem keyLE_trans : ∀ a b c : SnapEntry,
    keyLE a b = true → keyLE b c = true → keyLE a c = true := by
  intro a b c hab hbc
  simp only [keyLE, Bool.or_eq_true, Bool.and_eq_true, beq_iff_eq,
    Bool.not_eq_true'] at hab hbc ⊢
  rcases hab with hab | ⟨hab1, hab2⟩
  · rcases hbc with hbc | ⟨hbc1, hbc2⟩
    · exact Or.inl (charListLt_trans _ _ _ hab hbc)
    · exact Or.inl (hbc1 ▸ hab)
  · rcases hbc with hbc | ⟨hbc1, hbc2⟩
    · exact Or.inl (hab1 ▸ hbc)
    · refine Or.inr ⟨hab1.trans hbc1, ?_⟩
      by_cases hca : strLtB (sortKey2 c) (sortKey2 a) = true
      · by_cases hac : strLtB (sortKey2 a) (sortKey2 b) = true
        · have hcb : strLtB (sortKey2 c) (sortKey2 b) = true :=
            charListLt_trans _ _ _ hca hac
          rw [hcb] at hbc2; simp at hbc2
        · have hac' : strLtB (sortKey2 a) (sortKey2 b) = false := by
            revert hac; cases strLtB (sortKey2 a) (sortKey2 b) <;> simp
          have heq2 : sortKey2 b = sortKey2 a := strLtB_conn hab2 hac'
          rw [heq2] at hbc2
          rw [hbc2] at hca; simp at hca
      · revert hca; cases strLtB (sortKey2 c) (sortKey2 a) <;> simp
  
instance : IsTotal SnapEntry snapLE :=
  ⟨fun a b => by
    unfold snapLE
    rcases keyLE_total a b with h | h
    exacts [Or.inl h, Or.inr h]⟩

instance : IsTrans SnapEntry snapLE :=
  ⟨fun a b c hab hbc => keyLE_trans a b c hab hbc⟩

/-! ## Structural lemmas about the merged dict -/

/-- Keys of the insertion-ordered dict. -/
def dictKeys (m : List (String × SnapEntry)) : List String := m.map Prod.fst

theorem dict_any_iff_mem {m : List (String × SnapEntry)} {k : String} :
    m.any (fun p => p.1 == k) = true ↔ k ∈ dictKeys m := by
  simp [dictKeys, List.any_eq_true, List.mem_map]

theorem dict_any_eq_false {m : List (String × SnapEntry)} {k : String}
    (h : k ∉ dictKeys m) : m.any (fun p => p.1 == k) = false := by
  rcases h' : m.any (fun p => p.1 == k) with _ | _
  · rfl
  · exact absurd (dict_any_iff_mem.mp h') h

theorem dictInsert_of_not_mem {m : List (String × SnapEntry)} {k : String} (v : SnapEntry)
    (h : k ∉ dictKeys m) : dictInsert m k v = m ++ [(k, v)] := by
  unfold dictInsert
  rw [if_neg (by rw [dict_any_eq_false h]; simp)]

theorem dictInsert_unchanged {m : List (String × SnapEntry)} {k : String} {v : SnapEntry}
    (hnd : (dictKeys m).Nodup) (hmem : (k, v) ∈ m) : dictInsert m k v = m := by
  have hany : m.any (fun p => p.1 == k) = true :=
    List.any_eq_true.mpr ⟨(k, v), hmem, by simp⟩
  unfold dictInsert
  rw [if_pos hany]
  have hfix : ∀ p ∈ m, (if p.1 == k then (k, v) else p) = id p := by
    intro p hp
    by_cases hpk : (p.1 == k) = true
    · have hp1 : p.1 = k := by simpa using hpk
      have hnd' : (m.map Prod.fst).Nodup := hnd
      have hpe : p = (k, v) := List.inj_on_of_nodup_map hnd' hp hmem (by simp [hp1])
      rw [if_pos hpk, hpe]; rfl
    · rw [if_neg hpk]; rfl
  rw [List.map_congr_left hfix, List.map_id]

theorem dictGet_none_not_mem {m : List (String × SnapEntry)} {k : String}
    (h : dictGet m k = none) : k ∉ dictKeys m := by
  unfold dictGet at h
  rcases hf : m.find? (fun p => p.1 == k) with _ | p
  · intro hc
    obtain ⟨p, hp, hpk⟩ := dict_any_iff_mem.mpr hc |> List.any_eq_true.mp
    have := List.find?_eq_none.mp hf p hp
    exact this hpk
  · rw [hf] at h; cases h

theorem dictGet_append_left {m app : List (String × SnapEntry)} {k : String} {v : SnapEntry}
    (h : dictGet m k = some v) : dictGet (m ++ app) k = some v := by
  unfold dictGet at h ⊢
  rcases hf : m.find? (fun p => p.1 == k) with _ | p
  · rw [hf] at h; cases h
  · rw [List.find?_append, hf]
    rw [hf] at h
    exact h

theorem dictGet_append_none {m app : List (String × SnapEntry)} {k : String}
    (h1 : dictGet m k = none) (h2 : k ∉ dictKeys app) : dictGet (m ++ app) k = none := by
  unfold dictGet at h1 ⊢
  rcases hf : m.find? (fun p => p.1 == k) with _ | p
  · rw [List.find?_append, hf]
    have happ : app.find? (fun p => p.1 == k) = none := by
      rw [List.find?_eq_none]
      intro p hp hpk
      exact h2 (dict_any_iff_mem.mp (List.any_eq_true.mpr ⟨p, hp, hpk⟩))
    rw [happ]
    rfl
  · rw [hf] at h1; cases h1

/-- The dict built from a prior snapshot with pairwise-distinct ids is the
list of `(id, entry)` pairs in order. -/
theorem foldl_dictInsert_pairs :
    ∀ (l : List SnapEntry) (m : List (String × SnapEntry)),
      (dictKeys m ++ l.map (fun e => e.id)).Nodup →
      l.foldl (fun m e => dictInsert m e.id e) m = m ++ l.map (fun e => (e.id, e)) := by
  intro l
  induction l with
  | nil => intro m _; simp
  | cons e rest ih =>
    intro m h
    rw [List.map_cons, List.append_cons] at h
    have hmem : e.id ∉ dictKeys m := by
      rw [List.nodup_append, List.nodup_append] at h
      intro hc
      exact h.1.2.2 hc (by simp)
    rw [List.foldl_cons, dictInsert_of_not_mem e hmem]
    have hkeys : dictKeys (m ++ [(e.id, e)]) = dictKeys m ++ [e.id] := by
      simp [dictKeys]
    rw [ih (m ++ [(e.id, e)]) (by rw [hkeys]; exact h)]
    simp

/-- Dicts reached by the exporter: unique keys, and every entry is stored
under its own id. -/
def DictWF (m : List (String × SnapEntry)) : Prop :=
  (dictKeys m).Nodup ∧ ∀ p ∈ m, p.2.id = p.1

theorem dictKeys_dictInsert_of_mem {m : List (String × SnapEntry)} {k : String}
    (v : SnapEntry) (h : k ∈ dictKeys m) : dictKeys (dictInsert m k v) = dictKeys m := by
  unfold dictInsert
  rw [if_pos (dict_any_iff_mem.mpr h)]
  unfold dictKeys
  rw [List.map_map]
  refine List.map_congr_left ?_
  intro p _
  by_cases hpk : p.1 = k <;> simp [hpk]

theorem dictWF_insert {m : List (String × SnapEntry)} {k : String} {v : SnapEntry}
    (hwf : DictWF m) (hv : v.id = k) : DictWF (dictInsert m k v) := by
  obtain ⟨hnd, hval⟩ := hwf
  by_cases hmem : k ∈ dictKeys m
  · refine ⟨by rw [dictKeys_dictInsert_of_mem v hmem]; exact hnd, ?_⟩
    intro p hp
    unfold dictInsert at hp
    rw [if_pos (dict_any_iff_mem.mpr hmem)] at hp
    obtain ⟨q, hq, hqp⟩ := List.mem_map.mp hp
    by_cases hqk : (q.1 == k) = true
    · rw [if_pos hqk] at hqp
      rw [← hqp]
      exact hv
    · rw [if_neg hqk] at hqp
      rw [← hqp]
      exact hval q hq
  · rw [dictInsert_of_not_mem v hmem]
    refine ⟨?_, ?_⟩
    · rw [show dictKeys (m ++ [(k, v)]) = dictKeys m ++ [k] by simp [dictKeys],
        List.nodup_append]
      exact ⟨hnd, List.nodup_singleton k, by
        intro x hx hxk
        rw [List.mem_singleton.mp hxk] at hx
        exact hmem hx⟩
    · intro p hp
      rcases List.mem_append.mp hp with hp | hp
      · exact hval p hp
      · rw [List.mem_singleton.mp hp]
        exact hv

theorem dictWF_merge_job (now : PyDateTime) (acc : List (String × SnapEntry) × Nat)
    (job : JobPosting) (hwf : DictWF acc.1) : DictWF (merge_job now acc job).1 := by
  rcases hget : dictGet acc.1 job.id with _ | ex <;>
    simp only [merge_job, hget] <;>
    exact dictWF_insert hwf (by simp [job_to_dict])

theorem dictWF_export_merge (now : PyDateTime) :
    ∀ (jobs : List JobPosting) (acc : List (String × SnapEntry) × Nat),
      DictWF acc.1 → DictWF ((jobs.foldl (merge_job now) acc).1) := by
  intro jobs
  induction jobs with
  | nil => intro acc h; exact h
  | cons j rest ih =>
    intro acc h
    rw [List.foldl_cons]
    exact ih _ (dictWF_merge_job now acc j h)

theorem dictWF_prior_fold (l : List SnapEntry) :
    DictWF (l.foldl (fun m e => dictInsert m e.id e) []) := by
  suffices h : ∀ (m : List (String × SnapEntry)), DictWF m →
      DictWF (l.foldl (fun m e => dictInsert m e.id e) m) by
    exact h [] ⟨List.nodup_nil, by intro p hp; cases hp⟩
  induction l with
  | nil => intro m hm; exact hm
  | cons e rest ih =>
    intro m hm
    rw [List.foldl_cons]
    exact ih _ (dictWF_insert hm rfl)

/-- The entry the merge loop leaves under the id of a (unique) batch
posting. -/
def mergedEntry (now : PyDateTime) (m0 : List (String × SnapEntry)) (j : JobPosting) :
    SnapEntry :=
  match dictGet m0 j.id with
  | some ex =>
    { job_to_dict j with
        first_seen_at := some (ex.first_seen_at.getD now.isoformat)
        is_new := computeIsNew now (ex.first_seen_at.getD now.isoformat) }
  | none =>
    { job_to_dict j with first_seen_at := some now.isoformat, is_new := true }

theorem foldl_merge_fresh (now : PyDateTime) :
    ∀ (jobs : List JobPosting) (acc : List (String × SnapEntry) × Nat) (k : String),
      (∀ j ∈ jobs, j.id ≠ k) →
      dictGet ((jobs.foldl (merge_job now) acc).1) k = dictGet acc.1 k := by
  intro jobs
  induction jobs with
  | nil => intro acc k _; rfl
  | cons j rest ih =>
    intro acc k h
    rw [List.foldl_cons, ih _ _ (fun x hx => h x (List.mem_cons_of_mem _ hx)),
      dictGet_merge_job_ne now acc j k (h j (List.mem_cons_self _ _))]

theorem foldl_merge_char (now : PyDateTime) :
    ∀ (jobs : List JobPosting) (acc : List (String × SnapEntry) × Nat) (j : JobPosting),
      (jobs.map (fun x => x.id)).Nodup → j ∈ jobs →
      dictGet ((jobs.foldl (merge_job now) acc).1) j.id = some (mergedEntry now acc.1 j) := by
  intro jobs
  induction jobs with
  | nil => intro acc j _ hj; cases hj
  | cons j' rest ih =>
    intro acc j hnd hj
    rw [List.map_cons] at hnd
    have hnd' := List.nodup_cons.mp hnd
    rw [List.foldl_cons]
    rcases List.mem_cons.mp hj with rfl | hmem
    · rw [foldl_merge_fresh now rest _ j.id
        (fun x hx hcx => hnd'.1 (by rw [← hcx]; exact List.mem_map_of_mem _ hx))]
      rcases hget : dictGet acc.1 j.id with _ | ex
      · simp only [merge_job, hget, mergedEntry]
        exact dictGet_dictInsert_self _ _ _
      · simp only [merge_job, hget, mergedEntry]
        exact dictGet_dictInsert_self _ _ _
    · have hne : j'.id ≠ j.id := fun hc => hnd'.1 (hc ▸ List.mem_map_of_mem _ hmem)
      rw [ih _ j hnd'.2 hmem]
      unfold mergedEntry
      rw [dictGet_merge_job_ne now acc j' j.id hne]

theorem dictGet_mem_pair {m : List (String × SnapEntry)} {k : String} {v : SnapEntry}
    (h : dictGet m k = some v) : (k, v) ∈ m := by
  unfold dictGet at h
  rcases hf : m.find? (fun p => p.1 == k) with _ | p
  · rw [hf] at h; cases h
  · rw [hf] at h
    have hp2 : p.2 = v := by simpa using h
    have hpk : p.1 = k := by simpa using (List.find?_eq_some.mp hf).1
    have : (k, v) = p := by
      rw [← hpk, ← hp2]
    rw [this]
    exact List.mem_of_find?_eq_some hf

theorem dictGet_pairs_of_mem {l : List SnapEntry} {e : SnapEntry}
    (hnd : (l.map (fun x => x.id)).Nodup) (he : e ∈ l) :
    dictGet (l.map (fun x => (x.id, x))) e.id = some e := by
  induction l with
  | nil => cases he
  | cons x rest ih =>
    rw [List.map_cons] at hnd
    have hnd' := List.nodup_cons.mp hnd
    rcases List.mem_cons.mp he with rfl | hmem
    · unfold dictGet
      rw [List.map_cons, List.find?_cons_of_pos _ (by simp)]
      rfl
    · have hne : x.id ≠ e.id := fun hc => hnd'.1 (hc ▸ List.mem_map_of_mem _ hmem)
      unfold dictGet
      rw [List.map_cons,
        @List.find?_cons_of_neg _ (fun p => p.1 == e.id) (x.id, x) _ (by simp [hne])]
      exact ih hnd'.2 hmem

theorem dictGet_of_mem_pairKey :
    ∀ {m : List (String × SnapEntry)} {p : String × SnapEntry},
      (dictKeys m).Nodup → p ∈ m → dictGet m p.1 = some p.2 := by
  intro m
  induction m with
  | nil => intro p _ hp; cases hp
  | cons q rest ih =>
    intro p hnd hp
    have hnd' := List.nodup_cons.mp (show (q.1 :: dictKeys rest).Nodup from hnd)
    rcases List.mem_cons.mp hp with rfl | hmem
    · unfold dictGet
      rw [List.find?_cons_of_pos _ (by simp)]
      rfl
    · have hne : q.1 ≠ p.1 := fun hc => hnd'.1 (hc ▸ List.mem_map_of_mem Prod.fst hmem)
      unfold dictGet
      rw [@List.find?_cons_of_neg _ (fun r => r.1 == p.1) q _ (by simp [hne])]
      exact ih hnd'.2 hmem

theorem dictGet_of_mem_values {m : List (String × SnapEntry)} (hwf : DictWF m)
    {e : SnapEntry} (he : e ∈ m.map Prod.snd) : dictGet m e.id = some e := by
  obtain ⟨p, hp, hpe⟩ := List.mem_map.mp he
  have h2 : e.id = p.1 := by rw [← hpe]; exact hwf.2 p hp
  rw [h2, dictGet_of_mem_pairKey hwf.1 hp, hpe]

theorem computeIsNew_self {now : PyDateTime} (hV : now.Valid) :
    computeIsNew now now.isoformat = true := by
  unfold computeIsNew
  rw [fromisoformat_isoformat now hV]
  simp only [decide_eq_true_eq]
  omega

theorem keepEntry_congr (now : PyDateTime) {e1 e2 : SnapEntry}
    (h : e1.deadline = e2.deadline) : keepEntry now e1 = keepEntry now e2 := by
  unfold keepEntry
  rw [h]

/-- Re-merging a batch into a dict already holding each batch entry's
merged form leaves the dict unchanged up to an appended segment of
re-created entries for ids absent from it. -/
theorem foldl_merge_idem (now : PyDateTime) :
    ∀ (jobs : List JobPosting) (m app : List (String × SnapEntry)) (c : Nat),
      (jobs.map (fun x => x.id)).Nodup →
      (dictKeys (m ++ app)).Nodup →
      (∀ j ∈ jobs, j.id ∉ dictKeys app) →
      (∀ j ∈ jobs, ∀ e, dictGet m j.id = some e →
        e = { job_to_dict j with
                first_seen_at := some (e.first_seen_at.getD now.isoformat)
                is_new := computeIsNew now (e.first_seen_at.getD now.isoformat) }) →
      ∃ ext, (jobs.foldl (merge_job now) (m ++ app, c)).1 = m ++ app ++ ext ∧
        ∀ p ∈ ext, ∃ j ∈ jobs, dictGet m j.id = none ∧
          p = (j.id, { job_to_dict j with
                first_seen_at := some now.isoformat
                is_new := true }) := by
  intro jobs
  induction jobs with
  | nil =>
    intro m app c _ _ _ _
    exact ⟨[], by simp, by intro p hp; cases hp⟩
  | cons j rest ih =>
    intro m app c hnd hkeys happ hfix
    rw [List.map_cons] at hnd
    have hnd' := List.nodup_cons.mp hnd
    rw [List.foldl_cons]
    rcases hget : dictGet m j.id with _ | e
    · -- the id is absent: a fresh junk entry is appended
      have hgapp : dictGet (m ++ app) j.id = none :=
        dictGet_append_none hget (happ j (List.mem_cons_self _ _))
      have hnotmem : j.id ∉ dictKeys (m ++ app) := dictGet_none_not_mem hgapp
      have hstep : (merge_job now (m ++ app, c) j).1
          = m ++ (app ++ [(j.id, { job_to_dict j with
              first_seen_at := some now.isoformat
              is_new := true })]) := by
        simp only [merge_job, hgapp]
        rw [dictInsert_of_not_mem _ hnotmem, List.append_assoc]
      rcases hpair : merge_job now (m ++ app, c) j with ⟨mm, cc⟩
      have hmm : mm = m ++ (app ++ [(j.id, { job_to_dict j with
          first_seen_at := some now.isoformat
          is_new := true })]) := by
        rw [← hstep, hpair]
      rw [hmm]
      have hkeys' : (dictKeys (m ++ (app ++ [(j.id, { job_to_dict j with
          first_seen_at := some now.isoformat
          is_new := true })]))).Nodup := by
        have heq : dictKeys (m ++ (app ++ [(j.id, { job_to_dict j with
            first_seen_at := some now.isoformat
            is_new := true })])) = dictKeys (m ++ app) ++ [j.id] := by
          simp [dictKeys]
        rw [heq, List.nodup_append]
        exact ⟨hkeys, List.nodup_singleton _, by
          intro x hx hxs
          rw [List.mem_singleton.mp hxs] at hx
          exact hnotmem hx⟩
      have happ' : ∀ x ∈ rest, x.id ∉ dictKeys (app ++ [(j.id, { job_to_dict j with
          first_seen_at := some now.isoformat
          is_new := true })]) := by
        intro x hx
        have heq : dictKeys (app ++ [(j.id, { job_to_dict j with
            first_seen_at := some now.isoformat
            is_new := true })]) = dictKeys app ++ [j.id] := by
          simp [dictKeys]
        rw [heq]
        intro hc
        rcases List.mem_append.mp hc with hc | hc
        · exact happ x (List.mem_cons_of_mem _ hx) hc
        · exact hnd'.1 (List.mem_singleton.mp hc ▸ List.mem_map_of_mem _ hx)
      obtain ⟨ext', hfold, hprop⟩ := ih m _ cc hnd'.2 hkeys' happ'
        (fun x hx => hfix x (List.mem_cons_of_mem _ hx))
      refine ⟨(j.id, { job_to_dict j with
          first_seen_at := some now.isoformat
          is_new := true }) :: ext', ?_, ?_⟩
      · rw [hfold]
        simp
      · intro p hp
        rcases List.mem_cons.mp hp with rfl | hp
        · exact ⟨j, List.mem_cons_self _ _, hget, rfl⟩
        · obtain ⟨x, hx, hxn, hxe⟩ := hprop p hp
          exact ⟨x, List.mem_cons_of_mem _ hx, hxn, hxe⟩
    · -- the id is present with its own merged form: the dict is unchanged
      have hg : dictGet (m ++ app) j.id = some e := dictGet_append_left hget
      have hstep : (merge_job now (m ++ app, c) j).1 = m ++ app := by
        simp only [merge_job, hg]
        rw [← hfix j (List.mem_cons_self _ _) e hget]
        exact dictInsert_unchanged hkeys (dictGet_mem_pair hg)
      rcases hpair : merge_job now (m ++ app, c) j with ⟨mm, cc⟩
      have hmm : mm = m ++ app := by rw [← hstep, hpair]
      rw [hmm]
      obtain ⟨ext', hfold, hprop⟩ := ih m app cc hnd'.2 hkeys
        (fun x hx => happ x (List.mem_cons_of_mem _ hx))
        (fun x hx => hfix x (List.mem_cons_of_mem _ hx))
      refine ⟨ext', hfold, ?_⟩
      intro p hp
      obtain ⟨x, hx, hxn, hxe⟩ := hprop p hp
      exact ⟨x, List.mem_cons_of_mem _ hx, hxn, hxe⟩

/-! ## Save-loop lemmas for the store's idempotence behaviour -/

theorem replaceRow_id_pres {k : String} {row' : JobRow} (hrow : row'.id = k) (x : JobRow) :
    ((if x.id == k then row' else x) : JobRow).id = x.id := by
  by_cases hx : (x.id == k) = true
  · rw [if_pos hx, hrow]
    exact (show x.id = k by simpa using hx).symm
  · rw [if_neg hx]

theorem findRow_append_left {db : DBState} {k : String} {r : JobRow} (l : DBState)
    (h : findRow db k = some r) : findRow (db ++ l) k = some r := by
  unfold findRow at h ⊢
  rw [List.find?_append, h]
  rfl

theorem not_mem_ids_of_findRow_none {db : DBState} {k : String}
    (h : findRow db k = none) : k ∉ db.map (fun r => r.id) := by
  unfold findRow at h
  intro hc
  obtain ⟨r, hr, hrk⟩ := List.mem_map.mp hc
  exact List.find?_eq_none.mp h r hr (by simp [hrk])

theorem save_jobs_loop_first (now : PyDateTime) :
    ∀ (jobs : List JobPosting) (staged : DBState) (n : Nat),
      ∃ final m, save_jobs_loop now (fun _ => true) staged jobs n = some (final, m) ∧
        ((staged.map (fun r => r.id)).Nodup → (final.map (fun r => r.id)).Nodup) ∧
        (∀ k, (findRow staged k).isSome → (findRow final k).isSome) ∧
        (∀ j ∈ jobs, (findRow final j.id).isSome) := by
  intro jobs
  induction jobs with
  | nil =>
    intro staged n
    exact ⟨staged, n, rfl, id, fun _ h => h, by intro j hj; cases hj⟩
  | cons j rest ih =>
    intro staged n
    rcases hfr : findRow staged j.id with _ | r
    · obtain ⟨final, m, heq, hnodup, hmono, hall⟩ :=
        ih (staged ++ [{ to_job_table j with is_new := true }]) (n + 1)
      have hrowid : ({ to_job_table j with is_new := true } : JobRow).id = j.id := by
        simp [to_job_table]
      have hstagedrow : findRow (staged ++ [{ to_job_table j with is_new := true }]) j.id
          = some { to_job_table j with is_new := true } := by
        unfold findRow at hfr ⊢
        rw [List.find?_append, hfr]
        simp [List.find?, to_job_table]
      refine ⟨final, m, ?_, ?_, ?_, ?_⟩
      · simp only [save_jobs_loop, hfr]
        simpa using heq
      · intro hnd
        refine hnodup ?_
        rw [List.map_append]
        rw [List.nodup_append]
        refine ⟨hnd, by simp, ?_⟩
        intro x hx hxs
        have hxid : x = j.id := by simpa [hrowid] using hxs
        exact not_mem_ids_of_findRow_none hfr (hxid ▸ hx)
      · intro k hk
        apply hmono
        rcases hfk : findRow staged k with _ | rk
        · rw [hfk] at hk; cases hk
        · rw [findRow_append_left _ hfk]; rfl
      · intro x hx
        rcases List.mem_cons.mp hx with rfl | hmem
        · exact hmono x.id (by rw [hstagedrow]; rfl)
        · exact hall x hmem
    · obtain ⟨final, m, heq, hnodup, hmono, hall⟩ :=
        ih (replaceRow staged j.id (updateExisting now j r)) n
      have hrowid : (updateExisting now j r).id = j.id := by
        rw [show (updateExisting now j r).id = r.id from rfl, findRow_id_eq hfr]
      have hfid : ∀ x : JobRow,
          ((if x.id == j.id then updateExisting now j r else x) : JobRow).id = x.id :=
        replaceRow_id_pres hrowid
      refine ⟨final, m, ?_, ?_, ?_, ?_⟩
      · simp only [save_jobs_loop, hfr]
        simpa using heq
      · intro hnd
        refine hnodup ?_
        have hmapeq : List.map (fun r => r.id) (replaceRow staged j.id (updateExisting now j r))
            = List.map (fun r => r.id) staged := by
          unfold replaceRow
          rw [List.map_map]
          exact List.map_congr_left (fun x _ => hfid x)
        rw [hmapeq]
        exact hnd
      · intro k hk
        apply hmono
        unfold replaceRow
        rw [findRow_map_id_pres _ hfid]
        rcases hfk : findRow staged k with _ | rk
        · rw [hfk] at hk; cases hk
        · rfl
      · intro x hx
        rcases List.mem_cons.mp hx with rfl | hmem
        · apply hmono
          rw [findRow_replaceRow_found x.id _ hrowid staged (by rw [hfr]; rfl)]
          rfl
        · exact hall x hmem

theorem save_jobs_loop_update_pass (now : PyDateTime) :
    ∀ (jobs : List JobPosting) (staged : DBState) (n : Nat),
      (staged.map (fun r => r.id)).Nodup →
      (∀ j ∈ jobs, (findRow staged j.id).isSome) →
      ∃ final, save_jobs_loop now (fun _ => true) staged jobs n = some (final, n) ∧
        final.map (fun r => r.id) = staged.map (fun r => r.id) ∧
        final.map (fun r => r.crawled_at) = staged.map (fun r => r.crawled_at) ∧
        (∀ k, (findRow staged k).map JobRow.is_new = some false →
          (findRow final k).map JobRow.is_new = some false) ∧
        (∀ j ∈ jobs, (findRow final j.id).map JobRow.is_new = some false) := by
  intro jobs
  induction jobs with
  | nil =>
    intro staged n _ _
    exact ⟨staged, rfl, rfl, rfl, fun _ h => h, by intro j hj; cases hj⟩
  | cons j rest ih =>
    intro staged n hnd hsome
    rcases hfr : findRow staged j.id with _ | r
    · have := hsome j (List.mem_cons_self _ _)
      rw [hfr] at this; cases this
    · have hrid : r.id = j.id := findRow_id_eq hfr
      have hrowid : (updateExisting now j r).id = j.id := by
        rw [show (updateExisting now j r).id = r.id from rfl, hrid]
      have hfid : ∀ x : JobRow,
          ((if x.id == j.id then updateExisting now j r else x) : JobRow).id = x.id :=
        replaceRow_id_pres hrowid
      have hrmem : r ∈ staged := by
        unfold findRow at hfr
        exact List.mem_of_find?_eq_some hfr
      have hmapid : List.map (fun r => r.id) (replaceRow staged j.id (updateExisting now j r))
          = List.map (fun r => r.id) staged := by
        unfold replaceRow
        rw [List.map_map]
        exact List.map_congr_left (fun x _ => hfid x)
      have hmapca : List.map (fun r => r.crawled_at)
            (replaceRow staged j.id (updateExisting now j r))
          = List.map (fun r => r.crawled_at) staged := by
        unfold replaceRow
        rw [List.map_map]
        refine List.map_congr_left ?_
        intro x hx
        by_cases hxk : (x.id == j.id) = true
        · have hxid : x.id = j.id := by simpa using hxk
          have hxr : x = r :=
            List.inj_on_of_nodup_map hnd hx hrmem (by rw [hxid, hrid])
          show ((if x.id == j.id then updateExisting now j r else x) : JobRow).crawled_at
            = x.crawled_at
          rw [if_pos hxk, hxr]
          rfl
        · show ((if x.id == j.id then updateExisting now j r else x) : JobRow).crawled_at
            = x.crawled_at
          rw [if_neg hxk]
      have hfindrep : ∀ k, findRow (replaceRow staged j.id (updateExisting now j r)) k
          = (findRow staged k).map
              (fun x => if x.id == j.id then updateExisting now j r else x) := by
        intro k
        unfold replaceRow
        exact findRow_map_id_pres _ hfid staged k
      have hpres : ∀ k, (findRow staged k).map JobRow.is_new = some false →
          (findRow (replaceRow staged j.id (updateExisting now j r)) k).map JobRow.is_new
            = some false := by
        intro k hk
        rw [hfindrep k]
        rcases hfk : findRow staged k with _ | v
        · rw [hfk] at hk; cases hk
        · rw [hfk] at hk
          have hv : v.is_new = false := by simpa using hk
          by_cases hvk : v.id = j.id
          · simp [hvk, updateExisting]
          · simp [hvk]
            exact hv
      obtain ⟨final, heq, hid, hca, hpres2, hall⟩ :=
        ih (replaceRow staged j.id (updateExisting now j r)) n
          (by rw [hmapid]; exact hnd)
          (by
            intro x hx
            rw [hfindrep x.id]
            rcases hfk : findRow staged x.id with _ | v
            · have := hsome x (List.mem_cons_of_mem _ hx)
              rw [hfk] at this; cases this
            · rfl)
      refine ⟨final, ?_, by rw [hid, hmapid], by rw [hca, hmapca], ?_, ?_⟩
      · simp only [save_jobs_loop, hfr]
        simpa using heq
      · intro k hk
        exact hpres2 k (hpres k hk)
      · intro x hx
        rcases List.mem_cons.mp hx with rfl | hmem
        · refine hpres2 x.id ?_
          rw [findRow_replaceRow_found x.id _ hrowid staged (by rw [hfr]; rfl)]
          rfl
        · exact hall x hmem

theorem mergedEntry_fix (now : PyDateTime) (m0 : List (String × SnapEntry))
    (j : JobPosting) (hV : now.Valid) :
    mergedEntry now m0 j = { job_to_dict j with
        first_seen_at := some ((mergedEntry now m0 j).first_seen_at.getD now.isoformat)
        is_new := computeIsNew now ((mergedEntry now m0 j).first_seen_at.getD now.isoformat) } := by
  unfold mergedEntry
  rcases hg : dictGet m0 j.id with _ | ex <;> simp [hg, computeIsNew_self hV]

theorem dictGet_pairs_some {l : List SnapEntry} {k : String} {e : SnapEntry}
    (h : dictGet (l.map (fun x => (x.id, x))) k = some e) : e ∈ l ∧ e.id = k := by
  have hp := dictGet_mem_pair h
  obtain ⟨x, hx, hxp⟩ := List.mem_map.mp hp
  have hx1 : x.id = k := congrArg Prod.fst hxp
  have hx2 : x = e := congrArg Prod.snd hxp
  rw [← hx2]
  exact ⟨hx, hx1⟩

/-- Re-exporting the same batch at the same instant reproduces the
snapshot exactly: surviving entries are overwritten with identical
values, and entries dropped by the expiry scan are re-created only to be
dropped again. -/
theorem export_idem_aux (now : PyDateTime) (hV : now.Valid)
    (prior : List SnapEntry) (jobs : List JobPosting)
    (hnd : (jobs.map (fun x => x.id)).Nodup) :
    export_jobs now (export_jobs now prior jobs) jobs = export_jobs now prior jobs := by
  have hwfM1 : DictWF ((jobs.foldl (merge_job now)
      (prior.foldl (fun m e => dictInsert m e.id e) [], 0)).1) :=
    dictWF_export_merge now jobs _ (dictWF_prior_fold prior)
  obtain ⟨out1, hout1, hkeep1, hmemM1, hidnodup, hback, hsorted⟩ :
      ∃ out1, export_jobs now prior jobs = out1 ∧
        (∀ e ∈ out1, keepEntry now e = true) ∧
        (∀ e ∈ out1, dictGet ((jobs.foldl (merge_job now)
            (prior.foldl (fun m e => dictInsert m e.id e) [], 0)).1) e.id = some e) ∧
        ((out1.map (fun e => e.id)).Nodup) ∧
        (∀ e, e ∈ ((jobs.foldl (merge_job now)
            (prior.foldl (fun m e => dictInsert m e.id e) [], 0)).1.map Prod.snd) →
          keepEntry now e = true → e ∈ out1) ∧
        List.Sorted snapLE out1 := by
    refine ⟨export_jobs now prior jobs, rfl, ?_, ?_, ?_, ?_, ?_⟩
    · intro e he
      simp only [export_jobs] at he
      rw [List.mem_insertionSort] at he
      exact (List.mem_filter.mp he).2
    · intro e he
      simp only [export_jobs] at he
      rw [List.mem_insertionSort] at he
      exact dictGet_of_mem_values hwfM1 (List.mem_filter.mp he).1
    · have hvalsid : (((jobs.foldl (merge_job now)
            (prior.foldl (fun m e => dictInsert m e.id e) [], 0)).1.map Prod.snd).map
              (fun e => e.id)).Nodup := by
        rw [List.map_map]
        have hcongr : List.map ((fun e => e.id) ∘ Prod.snd)
              ((jobs.foldl (merge_job now)
                (prior.foldl (fun m e => dictInsert m e.id e) [], 0)).1)
            = List.map Prod.fst
              ((jobs.foldl (merge_job now)
                (prior.foldl (fun m e => dictInsert m e.id e) [], 0)).1) :=
          List.map_congr_left (fun p hp => hwfM1.2 p hp)
        rw [hcongr]
        exact hwfM1.1
      have hsub : ((export_jobs now prior jobs).map (fun e => e.id)).Nodup := by
        have hperm := List.perm_insertionSort snapLE
          (expiry_filter now ((jobs.foldl (merge_job now)
            (prior.foldl (fun m e => dictInsert m e.id e) [], 0)).1))
        refine ((hperm.map (fun e => e.id)).nodup_iff).mpr ?_
        refine List.Sublist.nodup ?_ hvalsid
        exact List.Sublist.map _ (List.filter_sublist _)
      exact hsub
    · intro e hmem hkeep
      simp only [export_jobs]
      rw [List.mem_insertionSort]
      exact List.mem_filter.mpr ⟨hmem, hkeep⟩
    · exact List.sorted_insertionSort snapLE _
  rw [hout1]
  have hpairs : out1.foldl (fun m e => dictInsert m e.id e) []
      = out1.map (fun e => (e.id, e)) := by
    have h := foldl_dictInsert_pairs out1 [] (by simpa [dictKeys] using hidnodup)
    simpa using h
  have hfix : ∀ j ∈ jobs, ∀ e, dictGet (out1.map (fun x => (x.id, x))) j.id = some e →
      e = { job_to_dict j with
              first_seen_at := some (e.first_seen_at.getD now.isoformat)
              is_new := computeIsNew now (e.first_seen_at.getD now.isoformat) } := by
    intro j hj e hget
    obtain ⟨hmem, hid⟩ := dictGet_pairs_some hget
    have h1 := hmemM1 e hmem
    rw [hid] at h1
    have h2 := foldl_merge_char now jobs
      (prior.foldl (fun m e => dictInsert m e.id e) [], 0) j hnd hj
    rw [h1] at h2
    have he : e = mergedEntry now (prior.foldl (fun m e => dictInsert m e.id e) []) j :=
      Option.some.inj h2
    rw [he]
    exact mergedEntry_fix now _ j hV
  obtain ⟨ext, hfold, hext⟩ := foldl_merge_idem now jobs
    (out1.map (fun x => (x.id, x))) [] 0 hnd
    (by simpa [dictKeys, List.map_map, Function.comp] using hidnodup)
    (by intro j hj; simp [dictKeys])
    hfix
  simp only [List.append_nil] at hfold
  show ((((jobs.foldl (merge_job now)
      (out1.foldl (fun m e => dictInsert m e.id e) [], 0)).1).map Prod.snd).filter
        (keepEntry now)).insertionSort snapLE = out1
  rw [hpairs, hfold, List.map_append, List.filter_append]
  have h1 : ((out1.map (fun x => (x.id, x))).map Prod.snd).filter (keepEntry now) = out1 := by
    have hmm : (out1.map (fun x => (x.id, x))).map Prod.snd = out1 := by
      have h0 : List.map (Prod.snd ∘ fun x => (x.id, x)) out1 = List.map id out1 :=
        List.map_congr_left (fun x _ => rfl)
      rw [List.map_map, h0, List.map_id]
    rw [hmm]
    exact List.filter_eq_self.mpr hkeep1
  have h2 : (ext.map Prod.snd).filter (keepEntry now) = [] := by
    rw [List.filter_eq_nil_iff]
    intro v hv
    obtain ⟨p, hp, hpv⟩ := List.mem_map.mp hv
    obtain ⟨j, hj, hnone, hpe⟩ := hext p hp
    have hveq : v = { job_to_dict j with
        first_seen_at := some now.isoformat
        is_new := true } := by
      rw [← hpv, hpe]
    have hchar := foldl_merge_char now jobs
      (prior.foldl (fun m e => dictInsert m e.id e) [], 0) j hnd hj
    have hmid : (mergedEntry now (prior.foldl (fun m e => dictInsert m e.id e) []) j).id
        = j.id := by
      unfold mergedEntry
      rcases hg : dictGet (prior.foldl (fun m e => dictInsert m e.id e) []) j.id with _ | ex <;>
        simp [hg, job_to_dict]
    have hkeepC : keepEntry now
        (mergedEntry now (prior.foldl (fun m e => dictInsert m e.id e) []) j) = false := by
      rcases hkc : keepEntry now
          (mergedEntry now (prior.foldl (fun m e => dictInsert m e.id e) []) j) with _ | _
      · exact hkc
      · exfalso
        have hin : mergedEntry now (prior.foldl (fun m e => dictInsert m e.id e) []) j
            ∈ out1 :=
          hback _ (dictGet_mem_values hchar) hkc
        have hgp := dictGet_pairs_of_mem hidnodup hin
        rw [hmid, hnone] at hgp
        cases hgp
    have hdl : v.deadline
        = (mergedEntry now (prior.foldl (fun m e => dictInsert m e.id e) []) j).deadline := by
      rw [hveq]
      unfold mergedEntry
      rcases hg : dictGet (prior.foldl (fun m e => dictInsert m e.id e) []) j.id with _ | ex <;>
        simp [hg]
    rw [keepEntry_congr now hdl, hkeepC]
    decide
  rw [h1, h2, List.append_nil]
  exact List.Sorted.insertionSort_eq hsorted

/-! ## C2: exporter idempotent, database second pass flips is_new -/

/-- C2 counterexample: saving the one-element sample batch twice in
immediate succession at the same instant changes the stored row — the
first pass inserts it with `is_new = true` and the second pass
unconditionally resets `is_new` to `false` — so the database ledger is
not unchanged. -/
theorem C2_counterexample :
    (findRow (save_jobs_ok sampleT1 (save_jobs_ok sampleT1 [] [sampleJob]) [sampleJob])
        sampleJob.id).map JobRow.is_new ≠
      (findRow (save_jobs_ok sampleT1 [] [sampleJob]) sampleJob.id).map JobRow.is_new := by
  decide

/-- C2 amended: the snapshot exporter is fully idempotent — re-exporting
the same distinct-id batch at the same valid instant reproduces the
snapshot exactly; the database's second pass creates no duplicate rows
and preserves every row's id and crawled_at, but it sets each re-saved
row's `is_new` to `false` (so `is_new` is not unchanged whenever the
first pass inserted a fresh row). -/
theorem C2_amended (now : PyDateTime) (hV : now.Valid)
    (prior : List SnapEntry) (db : DBState) (jobs : List JobPosting)
    (hnd : (jobs.map (fun x => x.id)).Nodup)
    (hdbnd : (db.map (fun r => r.id)).Nodup) :
    export_jobs now (export_jobs now prior jobs) jobs = export_jobs now prior jobs ∧
    ∃ L2 : DBState,
      Database.save_jobs now (fun _ => true) (save_jobs_ok now db jobs) jobs
          = (L2, Except.ok 0) ∧
        L2.map (fun r => r.id) = (save_jobs_ok now db jobs).map (fun r => r.id) ∧
        L2.map (fun r => r.crawled_at)
          = (save_jobs_ok now db jobs).map (fun r => r.crawled_at) ∧
        (∀ j ∈ jobs, (findRow L2 j.id).map JobRow.is_new = some false) := by
  refine ⟨export_idem_aux now hV prior jobs hnd, ?_⟩
  obtain ⟨final, m, heq1, hnodup, _, hall⟩ := save_jobs_loop_first now jobs db 0
  have hL1 : save_jobs_ok now db jobs = final := by
    unfold save_jobs_ok Database.save_jobs
    rw [heq1]
  obtain ⟨L2, heq2, hid, hca, _, hnew⟩ :=
    save_jobs_loop_update_pass now jobs final 0 (hnodup hdbnd) hall
  refine ⟨L2, ?_, ?_, ?_, ?_⟩
  · rw [hL1]
    unfold Database.save_jobs
    rw [heq2]
  · rw [hL1, hid]
  · rw [hL1, hca]
  · exact hnew

/-- Witness for C2 at the shared sample instant, an empty prior snapshot,
an empty database and the one-element sample batch. -/
theorem C2_witness :
    (sampleT1.Valid ∧ (([sampleJob].map (fun x => x.id)).Nodup) ∧
        ((([] : DBState).map (fun r => r.id)).Nodup)) ∧
      export_jobs sampleT1 (export_jobs sampleT1 [] [sampleJob]) [sampleJob]
        = export_jobs sampleT1 [] [sampleJob] :=
  ⟨⟨by decide, by decide, by decide⟩,
   (C2_amended sampleT1 (by decide) [] [] [sampleJob] (by decide) (by decide)).1⟩
